import Mathlib

/-!
Shallow embedding of the artifact acquisition and transfer engine of
`src/minecraft_downloader.py` (class `MinecraftDownloader` and its helper
functions), together with proofs settling the frozen claims about it.

Modelling conventions:
* Byte strings are `List Nat` (one entry per byte).
* The local filesystem is a partial map from modelled paths to contents.
  The transfer engine touches destination files (`MPath.file s`) and the
  per-destination temporary spill files `temp_chunks/chunk_%04d`
  (`MPath.chunk s i`); distinct constructor arguments correspond to
  distinct OS paths.
* Network behaviour is an input (an oracle): a whole-file GET is a
  `StreamResponse`, a ranged chunk GET attempt is a `ChunkAttempt`, a HEAD
  size probe is an `Except` value.  Every issued request is recorded in an
  event trace, tagged with the worker pool it ran on (`none` = the calling
  thread).  `ThreadPoolExecutor` instances are given fresh numeric ids at
  their `with` blocks; `as_completed` iteration is determinised to
  submission order, which is sound here because the per-future effects
  touch pairwise distinct paths and accumulators.
* The SHA-1 digest of `hashlib` is abstracted as a hash-function parameter
  `hashFn : Bytes → String`; no claim depends on the internals of SHA-1,
  only on equality/inequality of digests.
-/

abbrev Bytes := List Nat

/-- Paths touched by the transfer engine: a destination file, or the
temporary spill file for chunk `i` of the download whose destination is
`s` (`temp_chunks/chunk_%04d` in the destination's directory). -/
inductive MPath where
  | file (s : String)
  | chunk (s : String) (i : Nat)
deriving DecidableEq

/-- The modelled filesystem: contents of each path, `none` = absent. -/
abbrev FS := MPath → Option Bytes

def FS.set (fs : FS) (p : MPath) (v : Option Bytes) : FS :=
  fun q => if q = p then v else fs q

@[simp] theorem FS.set_same (fs : FS) (p : MPath) (v : Option Bytes) :
    FS.set fs p v p = v := by
  simp [FS.set]

theorem FS.set_other (fs : FS) (p q : MPath) (v : Option Bytes) (h : q ≠ p) :
    FS.set fs p v q = fs q := by
  simp [FS.set, h]

/-- Observable events of one downloader run: a progress-callback emission,
creation/closing of a `ThreadPoolExecutor` (with its `max_workers`), and a
network request tagged with the pool whose worker issued it (`none` = the
calling thread). -/
inductive Ev where
  | emit (msg : String)
  | poolCreate (pid workers : Nat)
  | poolClose (pid : Nat)
  | request (pool : Option Nat)
deriving DecidableEq

/- ====================================================================
   Utility functions of the source module
   ==================================================================== -/

/-- Model of `verify_file(file_path, expected_hash)`: a missing (or unreadable) file
fails verification, otherwise the file's digest is compared with the
expected one.  The digest function is the `hashFn` parameter. -/
def verify_file (hashFn : Bytes → String) (content : Option Bytes)
    (expected : String) : Bool :=
  match content with
  | none => false
  | some data => hashFn data == expected

/-- One entry of a library's `rules` list.  `os = none` means the rule has
no `"os"` key (it is unconditional); `os = some n` means the rule has an
`"os"` object whose `"name"` is `n` (the empty string when the key is
missing, exactly as `rule["os"].get("name", "")` produces). -/
structure PRule where
  os : Option String
  action : String
deriving DecidableEq

structure Artifact where
  url : Option String
  path : Option String
deriving DecidableEq

/-- A library entry as consumed by `is_library_allowed` and
`_download_libraries`: `rules = none` means the `"rules"` key is absent. -/
structure Library where
  rules : Option (List PRule)
  artifact : Option Artifact
deriving DecidableEq

/-- The body of the rule loop of `is_library_allowed`, one rule step. -/
def applyRule (currentOs : String) (allowed : Bool) (rule : PRule) : Bool :=
  match rule.os with
  | some osName =>
    if osName = currentOs then
      if rule.action = "allow" then true
      else if rule.action = "disallow" then false
      else allowed
    else allowed
  | none =>
    if rule.action = "allow" then true
    else if rule.action = "disallow" then false
    else allowed

/-- Model of `is_library_allowed(library)`: `True` when there is no `"rules"` key,
otherwise fold the rules over `allowed = False`. -/
def is_library_allowed (lib : Library) (currentOs : String) : Bool :=
  match lib.rules with
  | none => true
  | some rs => rs.foldl (applyRule currentOs) false

/-- The rule evaluator exactly as the specification sentence words it
(refinement comparison for claim C5): start `allowed = true` if no rules,
else `allowed = false`; an unconditional rule or an OS-matching rule sets
`allowed` to its action; a non-matching OS rule is skipped. -/
def spec_isAllowed (rules : Option (List PRule)) (currentOs : String) : Bool :=
  match rules with
  | none => true
  | some rs =>
    rs.foldl (fun allowed r =>
      match r.os with
      | none => r.action == "allow"
      | some n => if n = currentOs then r.action == "allow" else allowed) false

/- ====================================================================
   Version catalog (`get_version_list`)
   ==================================================================== -/

/-- One raw entry of the version manifest's `versions` list; `sha1` and
`complianceLevel` are optional keys. -/
structure VersionData where
  id : String
  type : String
  url : String
  releaseTime : String
  sha1 : Option String
  complianceLevel : Option Nat
deriving DecidableEq

/-- The `VersionInfo` dataclass. -/
structure VersionInfo where
  id : String
  type : String
  url : String
  release_time : String
  sha1 : String
  compliance_level : Nat
deriving DecidableEq

inductive VersionType where
  | release
  | snapshot
  | old_beta
  | old_alpha
  | all
deriving DecidableEq

def VersionType.value : VersionType → String
  | .release => "release"
  | .snapshot => "snapshot"
  | .old_beta => "old_beta"
  | .old_alpha => "old_alpha"
  | .all => "all"

def parseVersion (v : VersionData) : VersionInfo :=
  ⟨v.id, v.type, v.url, v.releaseTime, v.sha1.getD "", v.complianceLevel.getD 0⟩

/-- The filter condition of the manifest loop:
`version_type == VersionType.ALL or version.type == version_type.value`. -/
def versionKept (vt : VersionType) (v : VersionInfo) : Bool :=
  if vt = VersionType.all ∨ v.type = vt.value then true else false

/-- Code-point comparison of character lists: the lexicographic order
Python uses on `str` (and by which `list.sort(key=...)` compares the
`releaseTime` strings). -/
def charsLe : List Char → List Char → Bool
  | [], _ => true
  | _ :: _, [] => false
  | a :: as, b :: bs =>
    if a.toNat < b.toNat then true
    else if b.toNat < a.toNat then false
    else charsLe as bs

def strLe (s t : String) : Bool := charsLe s.data t.data

/-- Sort relation of `versions.sort(key=lambda x: x.release_time, reverse=True)`:
`a` may precede `b` when `b`'s release time is at most `a`'s. -/
def versionDesc (a b : VersionInfo) : Prop :=
  strLe b.release_time a.release_time = true

instance : DecidableRel versionDesc := fun _ _ =>
  inferInstanceAs (Decidable (_ = true))

/-- Model of `get_version_list(version_type, limit)` given the manifest's parsed
`versions` array: build the filtered list in manifest order, stable-sort it
by release time descending (Python's sort is stable; `insertionSort` is the
same stable sort), then apply the `if limit:` truncation — note that both
`None` and `0` are falsy in Python, so `limit = some 0` does not truncate. -/
def get_version_list (manifest : List VersionData) (vt : VersionType)
    (limit : Option Nat) : List VersionInfo :=
  let versions := manifest.foldl (fun acc vd =>
    let v := parseVersion vd
    if versionKept vt v then acc ++ [v] else acc) []
  let sorted := List.insertionSort versionDesc versions
  match limit with
  | some l => if l ≠ 0 then sorted.take l else sorted
  | none => sorted

/- ====================================================================
   Transfer engine: whole-file strategy (`_download_file_normal`)
   ==================================================================== -/

/-- One whole-file GET: `ok = false` models a request/`raise_for_status`
failure (the destination is never opened); otherwise `chunks` are the
bodies yielded by `iter_content` and written one by one, and
`midError = true` models the stream raising after those chunks were
delivered.  `contentLength` is the `content-length` header (0 if absent);
it only feeds progress reporting. -/
structure StreamResponse where
  ok : Bool
  contentLength : Nat
  chunks : List Bytes
  midError : Bool
deriving DecidableEq

/-- Model of `_download_file_normal(url, file_path)`: streams the body directly
into the final `file_path` (opened with mode `wb`), catching any
exception.  Returns the success flag, the filesystem, and the event trace;
`ctx` is the worker pool the call runs on.  The per-chunk progress
emissions (percentage strings) are elided from the trace. -/
def downloadFileNormal (ctx : Option Nat) (resp : StreamResponse)
    (dest : String) (fs : FS) : Bool × FS × List Ev :=
  if resp.ok then
    let fs' := FS.set fs (.file dest) (some resp.chunks.flatten)
    if resp.midError then (false, fs', [Ev.request ctx, Ev.emit "download failed"])
    else (true, fs', [Ev.request ctx])
  else (false, fs, [Ev.request ctx, Ev.emit "download failed"])

/- ====================================================================
   Transfer engine: chunked strategy (`_download_file_multithread`)
   ==================================================================== -/

/-- The relevant fields of `DownloadConfig`. -/
structure MtConfig where
  chunkSize : Nat
  maxRetries : Nat
  maxWorkers : Nat
deriving DecidableEq

/-- Model of `chunks = file_size // chunk_size` plus one if there is a remainder. -/
def numChunks (fileSize chunkSize : Nat) : Nat :=
  fileSize / chunkSize + (if fileSize % chunkSize = 0 then 0 else 1)

/-- Model of `start = i * chunk_size`. -/
def chunkStart (c i : Nat) : Nat := i * c

/-- Model of `end = start + chunk_size - 1`, truncated by
`if end >= file_size: end = file_size - 1` (inclusive byte index). -/
def chunkEnd (c size i : Nat) : Nat :=
  if size ≤ i * c + c - 1 then size - 1 else i * c + c - 1

/-- The bytes of the inclusive range `[s, e]` of `data` — what a
well-behaved range server returns for `Range: bytes=s-e`. -/
def rangeBytes (data : Bytes) (s e : Nat) : Bytes :=
  (data.drop s).take (e + 1 - s)

/-- Outcome of one `_download_chunk` attempt: the request itself failed
(`raise_for_status` raised, the spill file is not touched), the stream
died after delivering `bytes` (the spill file, opened `wb`, now holds
exactly those bytes), or the stream completed with body `bytes`. -/
inductive ChunkAttempt where
  | reqFail
  | midFail (bytes : Bytes)
  | ok (bytes : Bytes)
deriving DecidableEq

/-- Bytes the attempt leaves in the spill file (`none` = no write). -/
def attemptBytes : ChunkAttempt → Option Bytes
  | .reqFail => none
  | .midFail b => some b
  | .ok b => some b

/-- The success flag `_download_chunk` returns for the attempt. -/
def attemptOk : ChunkAttempt → Bool
  | .ok _ => true
  | _ => false

/-- Effect of one `_download_chunk` call for chunk `i` of destination
`dest`. -/
def applyAttempt (dest : String) (i : Nat) (a : ChunkAttempt) (fs : FS) :
    Bool × FS :=
  (attemptOk a,
   match attemptBytes a with
   | none => fs
   | some b => FS.set fs (.chunk dest i) (some b))

/-- The initial pass: submit every chunk to the pool, collect the indices
whose attempt failed.  `o i t` is the outcome of attempt number `t`
(0 = initial pass) for chunk `i`. -/
def initialPassGo (o : Nat → Nat → ChunkAttempt) (dest : String) :
    List Nat → FS × List Nat → FS × List Nat
  | [], st => st
  | i :: rest, (fs, failed) =>
    let r := applyAttempt dest i (o i 0) fs
    initialPassGo o dest rest (r.2, if r.1 then failed else failed ++ [i])

/-- The sequential retry loop for one failed chunk:
`for retry in range(max_retries): ...; if success: break`.  `t` is the
number of the next attempt, the second argument the remaining budget.
Returns the filesystem and the number of attempts actually issued. -/
def retryChunkGo (o : Nat → Nat → ChunkAttempt) (dest : String) (i : Nat) :
    Nat → Nat → FS → FS × Nat
  | _, 0, fs => (fs, 0)
  | t, r + 1, fs =>
    let a := applyAttempt dest i (o i t) fs
    if a.1 then (a.2, 1)
    else
      let rec' := retryChunkGo o dest i (t + 1) r a.2
      (rec'.1, rec'.2 + 1)

/-- The retry phase over the failed-chunk list (sequential, on the calling
thread — the pool's `with` block has already exited). -/
def retryPhaseGo (o : Nat → Nat → ChunkAttempt) (dest : String) (maxRetries : Nat) :
    List Nat → FS → FS × List Ev
  | [], fs => (fs, [])
  | i :: rest, fs =>
    let r1 := retryChunkGo o dest i 1 maxRetries fs
    let r2 := retryPhaseGo o dest maxRetries rest r1.1
    (r2.1, List.replicate r1.2 (Ev.request none) ++ r2.2)

/-- The merge loop: `file_path` is opened with mode `wb` (created or
truncated immediately), then each spill file is appended in ascending
index order and removed; a spill file that cannot be opened aborts the
merge, leaving whatever was already written at the destination. -/
def mergeGo (dest : String) : List Nat → Bytes → FS → Bool × FS
  | [], acc, fs => (true, FS.set fs (.file dest) (some acc))
  | i :: rest, acc, fs =>
    match fs (.chunk dest i) with
    | none => (false, FS.set fs (.file dest) (some acc))
    | some b => mergeGo dest rest (acc ++ b) (FS.set fs (.chunk dest i) none)

/-- Model of `_download_file_multithread(url, file_path, file_size)`: initial pass
on a fresh `ThreadPoolExecutor` (pool id `pid`), sequential retries of the
failed chunks, then the merge — which is attempted unconditionally. -/
def downloadFileMultithread (cfg : MtConfig) (pid : Nat)
    (o : Nat → Nat → ChunkAttempt) (dest : String) (fileSize : Nat)
    (fs : FS) : Bool × FS × List Ev :=
  let n := numChunks fileSize cfg.chunkSize
  let st1 := initialPassGo o dest (List.range n) (fs, [])
  let st2 := retryPhaseGo o dest cfg.maxRetries st1.2 st1.1
  let m := mergeGo dest (List.range n) [] st2.1
  (m.1, m.2,
    (Ev.poolCreate pid cfg.maxWorkers ::
      (List.replicate n (Ev.request (some pid)) ++ [Ev.poolClose pid]))
    ++ st2.2
    ++ (if m.1 then [] else [Ev.emit "merge chunk failed"]))

/- ====================================================================
   Strategy selection (`_download_file`, `_get_file_size`)
   ==================================================================== -/

/-- Model of `_get_file_size(url)`: a HEAD request; any exception (including a
failed status) yields 0, as does a missing `content-length` header. -/
def getFileSize (probe : Except Unit (Option Nat)) : Nat :=
  match probe with
  | .ok h => h.getD 0
  | .error _ => 0

/-- Network behaviour available to one `_download_file` call: the size
probe, the whole-file response (used by the normal strategy) and the
chunk-attempt oracle (used by the chunked strategy). -/
structure TransferOracle where
  probe : Except Unit (Option Nat)
  resp : StreamResponse
  mt : Nat → Nat → ChunkAttempt

/-- Model of `_download_file(url, file_path)`: probe the size, then
`if file_size > chunk_size * 2` use the chunked strategy, else the
whole-file strategy.  The probe request itself runs on the calling
thread. -/
def downloadFile (cfg : MtConfig) (pid : Nat) (o : TransferOracle)
    (dest : String) (fs : FS) : Bool × FS × List Ev :=
  let size := getFileSize o.probe
  if size > cfg.chunkSize * 2 then
    let r := downloadFileMultithread cfg pid o.mt dest size fs
    (r.1, r.2.1, Ev.request none :: r.2.2)
  else
    let r := downloadFileNormal none o.resp dest fs
    (r.1, r.2.1, Ev.request none :: r.2.2)

/- ====================================================================
   Asset objects and task generation (`_download_assets`,
   `_download_libraries`)
   ==================================================================== -/

/-- One entry of the asset index's `objects` mapping. -/
structure AssetObj where
  name : String
  hash : String
  size : Nat
deriving DecidableEq

def assetsUrlBase : String := "https://resources.download.minecraft.net"

/-- Model of `hash_value[:2]`, the shard directory. -/
def assetShard (h : String) : String := h.take 2

/-- Destination path `objects/<hash[0:2]>/<hash>` under the assets dir. -/
def assetPath (h : String) : String :=
  "assets/objects/" ++ assetShard h ++ "/" ++ h

def assetUrl (h : String) : String :=
  assetsUrlBase ++ "/" ++ assetShard h ++ "/" ++ h

/-- The task-collection loop of `_download_assets`: one `(url, path)` task
per object whose destination does not verify against its hash. -/
def downloadAssetsTasks (hashFn : Bytes → String)
    (fileAt : String → Option Bytes) (objects : List AssetObj) :
    List (String × String) :=
  objects.foldl (fun acc a =>
    if verify_file hashFn (fileAt (assetPath a.hash)) a.hash then acc
    else acc ++ [(assetUrl a.hash, assetPath a.hash)]) []

/-- The task-collection loop of `_download_libraries`: disallowed
libraries are skipped; a task needs a truthy artifact url and path
(`None` and `""` are both falsy); the destination is skipped when the
path already exists — the hash is not consulted. -/
def downloadLibrariesTasks (currentOs : String) (existsAt : String → Bool)
    (libs : List Library) : List (String × String) :=
  libs.foldl (fun acc lib =>
    if is_library_allowed lib currentOs then
      match lib.artifact with
      | none => acc
      | some a =>
        match a.url, a.path with
        | some u, some p =>
          if u = "" ∨ p = "" then acc
          else if existsAt p then acc else acc ++ [(u, p)]
        | _, _ => acc
    else acc) []

/-- The per-batch `ThreadPoolExecutor` loop shared by `_download_assets`
and `_download_libraries`: each task is a `_download_file_normal` call run
by a worker of pool `pid`; a task's failure is swallowed
(`future.result()` is wrapped in try/except and `_download_file_normal`
itself catches).  The per-completion progress emissions are elided. -/
def runPoolGo (pid : Nat) (resps : Nat → StreamResponse) :
    Nat → List (String × String) → FS → FS × List Ev
  | _, [], fs => (fs, [])
  | k, t :: rest, fs =>
    let r1 := downloadFileNormal (some pid) (resps k) t.2 fs
    let r2 := runPoolGo pid resps (k + 1) rest r1.2.1
    (r2.1, r1.2.2 ++ r2.2)

def runPoolNormal (pid workers : Nat) (resps : Nat → StreamResponse)
    (tasks : List (String × String)) (fs : FS) : FS × List Ev :=
  let r := runPoolGo pid resps 0 tasks fs
  (r.1, Ev.poolCreate pid workers :: (r.2 ++ [Ev.poolClose pid]))

/-- Network/parse behaviour available to `_download_assets`: the response
for the asset-index download, the outcome of `json.load` on the index file
(an exception — including the file being absent after a failed download —
is the error case), and the response for each queued object task. -/
structure AssetsOracle where
  indexResp : StreamResponse
  parse : Except Unit (List AssetObj)
  taskResp : Nat → StreamResponse

/-- Model of `_download_assets(version_details)`.  `assetIndex` is
the `assetIndex` value of the details document — `none` for a missing or empty
dict, otherwise the `id` and `url` values (`none` = key absent).  The
index download, if needed, runs on the calling thread; object tasks run
on a fresh pool `pid`. -/
def downloadAssets (cfg : MtConfig) (hashFn : Bytes → String)
    (o : AssetsOracle) (assetIndex : Option (Option String × Option String))
    (pid : Nat) (fs : FS) : FS × List Ev :=
  match assetIndex with
  | none => (fs, [])
  | some (idOpt, urlOpt) =>
    match idOpt, urlOpt with
    | some idStr, some urlStr =>
      if idStr = "" ∨ urlStr = "" then (fs, [])
      else
        let indexPath := "assets/indexes/" ++ idStr ++ ".json"
        let r1 :=
          match fs (.file indexPath) with
          | none =>
            let r := downloadFileNormal none o.indexResp indexPath fs
            (r.2.1, r.2.2)
          | some _ => (fs, ([] : List Ev))
        match o.parse with
        | .error _ => (r1.1, r1.2 ++ [Ev.emit "load asset index failed"])
        | .ok objs =>
          let tasks := downloadAssetsTasks hashFn (fun p => r1.1 (.file p)) objs
          if tasks = [] then (r1.1, r1.2)
          else
            let r2 := runPoolNormal pid cfg.maxWorkers o.taskResp tasks r1.1
            (r2.1, r1.2 ++ [Ev.emit "download asset objects"] ++ r2.2)
    | _, _ => (fs, [])

/-- Model of `_download_libraries(libraries)`: collect the tasks, then run them on
a fresh pool `pid`. -/
def downloadLibraries (cfg : MtConfig) (taskResp : Nat → StreamResponse)
    (currentOs : String) (libs : List Library) (pid : Nat) (fs : FS) :
    FS × List Ev :=
  let tasks := downloadLibrariesTasks currentOs (fun p => (fs (.file p)).isSome) libs
  if tasks = [] then (fs, [])
  else
    let r := runPoolNormal pid cfg.maxWorkers taskResp tasks fs
    (r.1, Ev.emit "download library files" :: r.2)

/- ====================================================================
   `download_version`
   ==================================================================== -/

/-- The fields of the version-details document that `download_version`
consumes.  `clientUrl = none` models a missing
`downloads`/`client`/`url` key (a `KeyError` at the subscript chain). -/
structure VersionDetails where
  clientUrl : Option String
  assetIndex : Option (Option String × Option String)
  libraries : List Library

/-- Behaviour of the environment during one `download_version` call.
`details` is `get_version_details` (error = a raised `NetworkError`);
`saveJson` is the version-JSON write (error = a raised `OSError`);
`extractNatives` summarises `_extract_natives` (error = any exception it
raises; its internal sequential whole-file native downloads are not
modelled further — no claim depends on them). -/
structure VersionOracle where
  details : Except Unit VersionDetails
  saveJson : Except Unit Unit
  client : TransferOracle
  assets : AssetsOracle
  libResp : Nat → StreamResponse
  extractNatives : Except Unit Unit

/-- The `try` body of `download_version`.  The first result component is
`none` when an exception escapes the body (to be caught by the handler),
`some b` for an explicit `return b`.  Pool ids: 0 = the client download's
chunk pool (if chunked), 1 = the assets pool, 2 = the libraries pool. -/
def downloadVersionBody (cfg : MtConfig) (hashFn : Bytes → String)
    (o : VersionOracle) (currentOs versionId : String)
    (dlAssets dlLibs : Bool) (fs : FS) : Option Bool × FS × List Ev :=
  let evs0 := [Ev.emit "start download version", Ev.request none]
  match o.details with
  | .error _ => (none, fs, evs0)
  | .ok vd =>
    match o.saveJson with
    | .error _ => (none, fs, evs0)
    | .ok _ =>
      let jsonDest := "versions/" ++ versionId ++ "/" ++ versionId ++ ".json"
      let fs1 := FS.set fs (.file jsonDest) (some [])
      match vd.clientUrl with
      | none => (none, fs1, evs0)
      | some _ =>
        let jarDest := "versions/" ++ versionId ++ "/" ++ versionId ++ ".jar"
        let rc := downloadFile cfg 0 o.client jarDest fs1
        let evs1 := evs0 ++ [Ev.emit "download client file"] ++ rc.2.2
        if rc.1 = false then (some false, rc.2.1, evs1)
        else
          let ra :=
            if dlAssets then
              let r := downloadAssets cfg hashFn o.assets vd.assetIndex 1 rc.2.1
              (r.1, Ev.emit "download assets" :: r.2)
            else (rc.2.1, ([] : List Ev))
          let rl :=
            if dlLibs then
              let r := downloadLibraries cfg o.libResp currentOs vd.libraries 2 ra.1
              (r.1, Ev.emit "download libraries" :: r.2)
            else (ra.1, ([] : List Ev))
          let evs2 := evs1 ++ ra.2 ++ rl.2 ++ [Ev.emit "extract natives"]
          match o.extractNatives with
          | .error _ => (none, rl.1, evs2)
          | .ok _ => (some true, rl.1, evs2 ++ [Ev.emit "download version complete"])

/-- Model of `download_version(version_info, download_assets, download_libraries)`:
the whole body runs inside `try`; `except Exception` emits a failure
message and returns `False`. -/
def downloadVersion (cfg : MtConfig) (hashFn : Bytes → String)
    (o : VersionOracle) (currentOs versionId : String)
    (dlAssets dlLibs : Bool) (fs : FS) : Bool × FS × List Ev :=
  let r := downloadVersionBody cfg hashFn o currentOs versionId dlAssets dlLibs fs
  match r.1 with
  | some b => (b, r.2.1, r.2.2)
  | none => (false, r.2.1, r.2.2 ++ [Ev.emit "download version failed"])

/- ====================================================================
   Pool-usage discipline of an event trace
   ==================================================================== -/

/-- Scan a trace tracking the currently open pool: `some st` = the trace
so far is well-formed and `st` is the open pool (if any); `none` = a
violation (two pools open at once, an unmatched close, or a pooled
request outside its pool). -/
def poolScan : Option Nat → List Ev → Option (Option Nat)
  | st, [] => some st
  | st, e :: rest =>
    match e, st with
    | .poolCreate pid _, none => poolScan (some pid) rest
    | .poolCreate _ _, some _ => none
    | .poolClose pid, some q => if pid = q then poolScan none rest else none
    | .poolClose _, none => none
    | .request (some p), some q => if p = q then poolScan (some q) rest else none
    | .request (some _), none => none
    | .request none, st' => poolScan st' rest
    | .emit _, st' => poolScan st' rest

/- ====================================================================
   Lemmas: rule evaluator (C5)
   ==================================================================== -/

theorem foldl_rules_eq (cur : String) :
    ∀ (rs : List PRule) (acc : Bool),
      (∀ r ∈ rs, r.action = "allow" ∨ r.action = "disallow") →
      rs.foldl (applyRule cur) acc
        = rs.foldl (fun allowed r =>
            match r.os with
            | none => r.action == "allow"
            | some n => if n = cur then r.action == "allow" else allowed) acc
  | [], _, _ => rfl
  | r :: rs, acc, h => by
    have hr := h r (List.mem_cons_self r rs)
    have hrest : ∀ x ∈ rs, x.action = "allow" ∨ x.action = "disallow" :=
      fun x hx => h x (List.mem_cons_of_mem r hx)
    have hstep : applyRule cur acc r
        = (match r.os with
           | none => r.action == "allow"
           | some n => if n = cur then r.action == "allow" else acc) := by
      rcases hr with hr | hr <;>
        cases hos : r.os <;>
        simp [applyRule, hos, hr]
    simp only [List.foldl_cons, hstep]
    exact foldl_rules_eq cur rs _ hrest

/- ====================================================================
   Lemmas: version list (C7)
   ==================================================================== -/

theorem buildVersions_eq (vt : VersionType) :
    ∀ (manifest : List VersionData) (acc : List VersionInfo),
      manifest.foldl (fun acc vd =>
        let v := parseVersion vd
        if versionKept vt v then acc ++ [v] else acc) acc
      = acc ++ ((manifest.map parseVersion).filter (versionKept vt))
  | [], acc => by simp
  | vd :: manifest, acc => by
    simp only [List.foldl_cons, List.map_cons, List.filter_cons]
    cases hk : versionKept vt (parseVersion vd) <;>
      simp [hk, buildVersions_eq vt manifest]

theorem charsLe_total : ∀ as bs : List Char,
    charsLe as bs = true ∨ charsLe bs as = true
  | [], _ => Or.inl rfl
  | _ :: _, [] => Or.inr rfl
  | a :: as, b :: bs => by
    rcases Nat.lt_trichotomy a.toNat b.toNat with h | h | h
    · left; simp [charsLe, h]
    · have h1 : ¬ a.toNat < b.toNat := by omega
      have h2 : ¬ b.toNat < a.toNat := by omega
      rcases charsLe_total as bs with ih | ih
      · left; simp [charsLe, h1, h2, ih]
      · right; simp [charsLe, h1, h2, ih]
    · right; simp [charsLe, h]

theorem charsLe_trans : ∀ as bs cs : List Char,
    charsLe as bs = true → charsLe bs cs = true → charsLe as cs = true
  | [], _, _, _, _ => rfl
  | _ :: _, [], _, h1, _ => by simp [charsLe] at h1
  | _ :: _, _ :: _, [], _, h2 => by simp [charsLe] at h2
  | a :: as, b :: bs, c :: cs, h1, h2 => by
    by_cases hab : a.toNat < b.toNat <;> by_cases hbc : b.toNat < c.toNat
    · have : a.toNat < c.toNat := by omega
      simp [charsLe, this]
    · by_cases hcb : c.toNat < b.toNat
      · simp [charsLe, hbc, hcb] at h2
      · have hbc' : b.toNat = c.toNat := by omega
        have : a.toNat < c.toNat := by omega
        simp [charsLe, this]
    · by_cases hba : b.toNat < a.toNat
      · simp [charsLe, hab, hba] at h1
      · have hab' : a.toNat = b.toNat := by omega
        have : a.toNat < c.toNat := by omega
        simp [charsLe, this]
    · by_cases hba : b.toNat < a.toNat
      · simp [charsLe, hab, hba] at h1
      · by_cases hcb : c.toNat < b.toNat
        · simp [charsLe, hbc, hcb] at h2
        · have hab' : a.toNat = b.toNat := by omega
          have hbc' : b.toNat = c.toNat := by omega
          have h1' : charsLe as bs = true := by
            simpa [charsLe, hab, hba] using h1
          have h2' : charsLe bs cs = true := by
            simpa [charsLe, hbc, hcb] using h2
          have hac1 : ¬ a.toNat < c.toNat := by omega
          have hac2 : ¬ c.toNat < a.toNat := by omega
          simp [charsLe, hac1, hac2, charsLe_trans as bs cs h1' h2']

instance : IsTotal VersionInfo versionDesc :=
  ⟨fun a b => by
    rcases charsLe_total b.release_time.data a.release_time.data with h | h
    · exact Or.inl h
    · exact Or.inr h⟩

instance : IsTrans VersionInfo versionDesc :=
  ⟨fun a b c h1 h2 =>
    charsLe_trans c.release_time.data b.release_time.data a.release_time.data h2 h1⟩

/- ====================================================================
   Claim C5 — platform rule evaluator
   ==================================================================== -/

/-- C5: `is_library_allowed` computes exactly the evaluation the claim
describes — `true` with no rules list; otherwise a fold starting from
`false` in which an unconditional rule or an OS-matching rule sets the
accumulator to its action and a non-matching OS rule is skipped (last
applicable rule wins); in particular the rules
`[{allow, unconditional}, {disallow, os = x}]` evaluate to disallowed on
platform `x` and to allowed on any platform `y ≠ x`. -/
theorem c5_rule_evaluator (rules : List PRule) (cur : String)
    (hact : ∀ r ∈ rules, r.action = "allow" ∨ r.action = "disallow") :
    is_library_allowed ⟨some rules, none⟩ cur = spec_isAllowed (some rules) cur
    ∧ (∀ (art : Option Artifact) (cur2 : String),
        is_library_allowed ⟨none, art⟩ cur2 = true)
    ∧ (∀ x y : String, x ≠ y →
        is_library_allowed ⟨some [⟨none, "allow"⟩, ⟨some x, "disallow"⟩], none⟩ x = false
        ∧ is_library_allowed ⟨some [⟨none, "allow"⟩, ⟨some x, "disallow"⟩], none⟩ y = true) := by
  refine ⟨foldl_rules_eq cur rules false hact, fun art cur2 => rfl, fun x y hxy => ?_⟩
  constructor
  · simp [is_library_allowed, applyRule]
  · simp [is_library_allowed, applyRule, hxy]

theorem c5_rule_evaluator_witness :
    is_library_allowed ⟨some [⟨some "osx", "disallow"⟩], none⟩ "linux"
      = spec_isAllowed (some [⟨some "osx", "disallow"⟩]) "linux" :=
  (c5_rule_evaluator [⟨some "osx", "disallow"⟩] "linux"
    (by intro r hr; simp at hr; simp [hr])).1

/- ====================================================================
   Claim C7 — get_version_list
   ==================================================================== -/

/-- C7 (amended): `get_version_list` returns the manifest entries filtered
to the requested type, stably sorted by release time descending, and
truncated to the first `limit` entries when a **nonzero** limit is given
(Python's `if limit:` treats a limit of 0 like no limit); the concrete
three-version scenario with the release filter and limit 1 yields exactly
`["1.20.4"]`. -/
theorem c7_version_list_spec (manifest : List VersionData) (vt : VersionType)
    (l : Nat) (hl : l ≠ 0) :
    get_version_list manifest vt (some l)
      = (List.insertionSort versionDesc
          ((manifest.map parseVersion).filter (versionKept vt))).take l
    ∧ List.Sorted versionDesc (get_version_list manifest vt (some l))
    ∧ get_version_list
        [⟨"1.20.4", "release", "u3", "3", none, none⟩,
         ⟨"1.20.4-pre1", "snapshot", "u2", "2", none, none⟩,
         ⟨"1.19.4", "release", "u1", "1", none, none⟩]
        VersionType.release (some 1)
      = [⟨"1.20.4", "release", "u3", "3", "", 0⟩] := by
  have hmain : get_version_list manifest vt (some l)
      = (List.insertionSort versionDesc
          ((manifest.map parseVersion).filter (versionKept vt))).take l := by
    simp only [get_version_list, buildVersions_eq vt manifest [], List.nil_append, hl,
      ne_eq, not_false_eq_true, if_true]
  refine ⟨hmain, ?_, by decide⟩
  rw [hmain]
  exact List.Pairwise.sublist (List.take_sublist _ _)
    (List.sorted_insertionSort versionDesc _)

theorem c7_version_list_spec_witness :
    get_version_list
        [⟨"1.20.4", "release", "u3", "3", none, none⟩,
         ⟨"1.20.4-pre1", "snapshot", "u2", "2", none, none⟩,
         ⟨"1.19.4", "release", "u1", "1", none, none⟩]
        VersionType.release (some 1)
      = [⟨"1.20.4", "release", "u3", "3", "", 0⟩] :=
  (c7_version_list_spec [] VersionType.all 1 (by decide)).2.2

/-- C7 is false as stated for `limit = 0`: a limit of 0 is given, yet the
result is not truncated to the first 0 entries — `if limit:` is false for
`0`, so the whole sorted list is returned. -/
theorem c7_limit_zero_counterexample :
    get_version_list [⟨"1.19.4", "release", "u1", "1", none, none⟩]
        VersionType.release (some 0)
      ≠ (List.insertionSort versionDesc
          ((List.map parseVersion [⟨"1.19.4", "release", "u1", "1", none, none⟩]).filter
            (versionKept VersionType.release))).take 0 := by
  decide

/- ====================================================================
   Claim C8 — strategy selection
   ==================================================================== -/

theorem poolCreate_not_mem_normal (ctx : Option Nat) (resp : StreamResponse)
    (dest : String) (fs : FS) (pid w : Nat) :
    Ev.poolCreate pid w ∉ (downloadFileNormal ctx resp dest fs).2.2 := by
  cases hok : resp.ok <;> cases hmid : resp.midError <;>
    simp [downloadFileNormal, hok, hmid]

/-- C8: `_download_file` first issues the size probe (the first event of
its trace is a calling-thread request); the chunked strategy — observable
as the creation of the chunk pool — is chosen exactly when the probed size
strictly exceeds twice the configured chunk size, and the whole-file
strategy otherwise; a failed probe reports size 0, and a size of 0 never
exceeds the threshold, so both fall back to the whole-file strategy. -/
theorem c8_strategy_selection (cfg : MtConfig) (pid : Nat) (o : TransferOracle)
    (dest : String) (fs : FS) :
    (downloadFile cfg pid o dest fs
       = if getFileSize o.probe > cfg.chunkSize * 2 then
           (let r := downloadFileMultithread cfg pid o.mt dest (getFileSize o.probe) fs
            (r.1, r.2.1, Ev.request none :: r.2.2))
         else
           (let r := downloadFileNormal none o.resp dest fs
            (r.1, r.2.1, Ev.request none :: r.2.2)))
    ∧ (downloadFile cfg pid o dest fs).2.2.head? = some (Ev.request none)
    ∧ (Ev.poolCreate pid cfg.maxWorkers ∈ (downloadFile cfg pid o dest fs).2.2
        ↔ getFileSize o.probe > cfg.chunkSize * 2)
    ∧ (∀ (r : StreamResponse) (m : Nat → Nat → ChunkAttempt),
        getFileSize (TransferOracle.mk (Except.error ()) r m).probe = 0)
    ∧ ¬ (0 > cfg.chunkSize * 2) := by
  refine ⟨?_, ?_, ?_, fun r m => rfl, by omega⟩
  · by_cases h : getFileSize o.probe > cfg.chunkSize * 2 <;>
      simp [downloadFile, h]
  · by_cases h : getFileSize o.probe > cfg.chunkSize * 2 <;>
      simp [downloadFile, h]
  · by_cases h : getFileSize o.probe > cfg.chunkSize * 2
    · simp [downloadFile, h, downloadFileMultithread]
    · simp only [downloadFile, h, if_false]
      constructor
      · intro hmem
        rcases List.mem_cons.mp hmem with hc | hc
        · exact absurd hc (by simp)
        · exact absurd hc (poolCreate_not_mem_normal none o.resp dest fs pid cfg.maxWorkers)
      · intro hc; exact hc.elim

/- ====================================================================
   Claim C1 — no temporary-file promotion, partial files at destination
   ==================================================================== -/

theorem mergeGo_dest_isSome (dest : String) :
    ∀ (idxs : List Nat) (acc : Bytes) (fs : FS),
      ((mergeGo dest idxs acc fs).2 (MPath.file dest)).isSome = true
  | [], acc, fs => by simp [mergeGo]
  | i :: rest, acc, fs => by
    cases h : fs (.chunk dest i) with
    | none => simp [mergeGo, h]
    | some b => simpa [mergeGo, h] using mergeGo_dest_isSome dest rest (acc ++ b) _

theorem downloadFileMultithread_leaves_file (cfg : MtConfig) (pid : Nat)
    (o : Nat → Nat → ChunkAttempt) (dest : String) (size : Nat) (fs : FS) :
    (((downloadFileMultithread cfg pid o dest size fs).2.1) (MPath.file dest)).isSome
      = true := by
  simp only [downloadFileMultithread]
  exact mergeGo_dest_isSome dest _ _ _

/-- C1 (amended): both strategies write directly to the final destination
path, with no temporary-file promotion step and no hash check.  When the
request of the whole-file strategy fails outright the destination is not
touched, but once the stream is open the destination holds exactly the
bytes streamed so far — so a mid-stream failure leaves the truncated
prefix at the final destination path.  The chunked strategy opens
(creates or truncates) the destination at merge time unconditionally, so
after any chunked transfer — failed or not — a (possibly partial or
empty) file is present at the final destination path. -/
theorem c1_direct_write (ctx : Option Nat) (resp : StreamResponse)
    (dest : String) (fs : FS) :
    (resp.ok = false →
      downloadFileNormal ctx resp dest fs
        = (false, fs, [Ev.request ctx, Ev.emit "download failed"]))
    ∧ (resp.ok = true →
        (downloadFileNormal ctx resp dest fs).2.1 (MPath.file dest)
            = some resp.chunks.flatten
        ∧ (downloadFileNormal ctx resp dest fs).1 = !resp.midError)
    ∧ (∀ (cfg : MtConfig) (pid : Nat) (o : Nat → Nat → ChunkAttempt) (size : Nat),
        (((downloadFileMultithread cfg pid o dest size fs).2.1) (MPath.file dest)).isSome
          = true) := by
  refine ⟨fun hok => ?_, fun hok => ?_, fun cfg pid o size =>
    downloadFileMultithread_leaves_file cfg pid o dest size fs⟩
  · simp [downloadFileNormal, hok]
  · cases hmid : resp.midError <;> simp [downloadFileNormal, hok, hmid]

theorem c1_direct_write_witness :
    (downloadFileNormal none ⟨true, 0, [[7]], true⟩ "d" (fun _ => none)).2.1
        (MPath.file "d") = some [7]
    ∧ (downloadFileNormal none ⟨true, 0, [[7]], true⟩ "d" (fun _ => none)).1 = false :=
  (c1_direct_write none ⟨true, 0, [[7]], true⟩ "d" (fun _ => none)).2.1 rfl

/-- C1 is false as stated: a whole-file transfer of a 4-byte body that
dies after delivering 2 bytes reports failure yet leaves the truncated
2-byte prefix at the final destination path — no temporary location, no
promotion on success only. -/
theorem c1_counterexample :
    (downloadFileNormal none ⟨true, 4, [[1, 2]], true⟩ "v.jar" (fun _ => none)).1 = false
    ∧ (downloadFileNormal none ⟨true, 4, [[1, 2]], true⟩ "v.jar" (fun _ => none)).2.1
        (MPath.file "v.jar") = some [1, 2]
    ∧ 2 < 4 := by
  decide

/- ====================================================================
   Lemmas: chunk partition arithmetic and merge round trip (C6)
   ==================================================================== -/

theorem numChunks_mul_ge (S C : Nat) (hC : 0 < C) : S ≤ numChunks S C * C := by
  have hdm := Nat.div_add_mod S C
  have hlt : S % C < C := Nat.mod_lt _ hC
  by_cases h : S % C = 0
  · have hn : numChunks S C = S / C := by simp [numChunks, h]
    rw [hn, Nat.mul_comm]
    omega
  · have hn : numChunks S C = S / C + 1 := by simp [numChunks, h]
    rw [hn, Nat.add_mul, Nat.one_mul, Nat.mul_comm]
    omega

theorem numChunks_pred_mul_lt (S C : Nat) (hC : 0 < C) (hS : 0 < S) :
    (numChunks S C - 1) * C < S := by
  have hdm := Nat.div_add_mod S C
  have hlt : S % C < C := Nat.mod_lt _ hC
  by_cases h : S % C = 0
  · have hn : numChunks S C = S / C := by simp [numChunks, h]
    have hq : 0 < S / C := by
      rcases Nat.eq_zero_or_pos (S / C) with h0 | h0
      · rw [h0] at hdm; omega
      · exact h0
    rw [hn, Nat.sub_mul, Nat.one_mul, Nat.mul_comm]
    have : C * (S / C) - C < C * (S / C) := by
      have : 0 < C * (S / C) := by positivity
      omega
    omega
  · have hn : numChunks S C = S / C + 1 := by simp [numChunks, h]
    rw [hn, Nat.add_sub_cancel, Nat.mul_comm]
    omega

theorem numChunks_eq_ceil (S C : Nat) (hC : 0 < C) :
    numChunks S C = (S + C - 1) / C := by
  have hdm := Nat.div_add_mod S C
  have hlt : S % C < C := Nat.mod_lt _ hC
  by_cases h : S % C = 0
  · have hq : S + C - 1 = C * (S / C) + (C - 1) := by omega
    rw [hq, Nat.mul_add_div hC,
      Nat.div_eq_of_lt (show C - 1 < C by omega)]
    simp [numChunks, h]
  · have hq : S + C - 1 = C * (S / C + 1) + (S % C - 1) := by
      rw [Nat.mul_add, Nat.mul_one]
      omega
    rw [hq, Nat.mul_add_div hC,
      Nat.div_eq_of_lt (show S % C - 1 < C by omega)]
    simp [numChunks, h]

/-- Below the last chunk, the inclusive range end is untruncated. -/
theorem chunkEnd_not_last (S C i : Nat) (hC : 0 < C)
    (hi : i + 1 < numChunks S C) : chunkEnd C S i = i * C + C - 1 := by
  have hS : 0 < S := by
    rcases Nat.eq_zero_or_pos S with h0 | h0
    · rw [h0] at hi
      have : numChunks 0 C = 0 := by simp [numChunks, Nat.zero_div, Nat.zero_mod]
      omega
    · exact h0
  have h1 : (i + 1) * C ≤ (numChunks S C - 1) * C := by
    apply Nat.mul_le_mul_right
    omega
  have h2 := numChunks_pred_mul_lt S C hC hS
  have h3 : i * C + C - 1 < S := by
    have : (i + 1) * C = i * C + C := by rw [Nat.add_mul, Nat.one_mul]
    omega
  unfold chunkEnd
  rw [if_neg (by omega)]

/-- The last chunk's inclusive range end is `S - 1`. -/
theorem chunkEnd_last (S C : Nat) (hC : 0 < C) (hS : 0 < S) :
    chunkEnd C S (numChunks S C - 1) = S - 1 := by
  have h1 := numChunks_mul_ge S C hC
  have h2 := numChunks_pred_mul_lt S C hC hS
  have hn : 0 < numChunks S C := by
    by_contra h
    have : numChunks S C = 0 := by omega
    rw [this] at h1
    omega
  have hmul : numChunks S C * C = (numChunks S C - 1) * C + C := by
    have : numChunks S C = (numChunks S C - 1) + 1 := by omega
    calc numChunks S C * C = ((numChunks S C - 1) + 1) * C := by rw [← this]
    _ = (numChunks S C - 1) * C + C := by rw [Nat.add_mul, Nat.one_mul]
  unfold chunkEnd
  by_cases h : S ≤ (numChunks S C - 1) * C + C - 1
  · rw [if_pos h]
  · rw [if_neg h]
    omega

/-- Splitting a byte string into `n` slices of `C` and flattening them in
order reproduces it (when `n` slices cover its length). -/
theorem flatten_take_chunks (C : Nat) (hC : 0 < C) :
    ∀ (n : Nat) (data : Bytes), data.length ≤ n * C →
      ((List.range n).map (fun i => (data.drop (i * C)).take C)).flatten = data
  | 0, data, h => by
    have h0 : data.length = 0 := by simpa using h
    simp [List.eq_nil_of_length_eq_zero h0]
  | n + 1, data, h => by
    rw [List.range_succ_eq_map]
    simp only [List.map_cons, List.map_map, List.flatten_cons, Nat.zero_mul, List.drop_zero]
    have hmap : (List.range n).map ((fun i => (data.drop (i * C)).take C) ∘ Nat.succ)
        = (List.range n).map (fun i => ((data.drop C).drop (i * C)).take C) := by
      apply List.map_congr_left
      intro i _
      have hsm : Nat.succ i * C = C + i * C := by
        rw [Nat.succ_mul]; omega
      simp only [Function.comp_apply, List.drop_drop, hsm]
    have hlen : (data.drop C).length ≤ n * C := by
      rw [List.length_drop]
      have hh : data.length ≤ n * C + C := by
        have : (n + 1) * C = n * C + C := by rw [Nat.add_mul, Nat.one_mul]
        omega
      omega
    rw [hmap, flatten_take_chunks C hC n (data.drop C) hlen]
    exact List.take_append_drop C data

/- ====================================================================
   Lemmas: phase behaviour of the chunked strategy
   ==================================================================== -/

theorem initialPassGo_chunk (o : Nat → Nat → ChunkAttempt) (dest : String) :
    ∀ (L : List Nat) (fs : FS) (failed : List Nat) (i : Nat),
      (initialPassGo o dest L (fs, failed)).1 (MPath.chunk dest i)
        = if i ∈ L then
            (match attemptBytes (o i 0) with
             | some b => some b
             | none => fs (MPath.chunk dest i))
          else fs (MPath.chunk dest i)
  | [], fs, failed, i => by simp [initialPassGo]
  | j :: rest, fs, failed, i => by
    simp only [initialPassGo]
    rw [initialPassGo_chunk o dest rest _ _ i]
    by_cases hij : i = j
    · subst hij
      cases hb : attemptBytes (o i 0) with
      | none =>
        by_cases hir : i ∈ rest <;>
          simp [applyAttempt, hb, hir, List.mem_cons]
      | some b =>
        by_cases hir : i ∈ rest <;>
          simp [applyAttempt, hb, hir, List.mem_cons, FS.set_same]
    · cases hb : attemptBytes (o j 0) with
      | none =>
        by_cases hir : i ∈ rest <;>
          simp [applyAttempt, hb, hir, List.mem_cons, hij]
      | some b =>
        have hne : MPath.chunk dest i ≠ MPath.chunk dest j := by simp [hij]
        by_cases hir : i ∈ rest <;>
          simp [applyAttempt, hb, hir, List.mem_cons, hij, FS.set_other _ _ _ _ hne]

theorem initialPassGo_failed (o : Nat → Nat → ChunkAttempt) (dest : String) :
    ∀ (L : List Nat) (fs : FS) (failed : List Nat),
      (initialPassGo o dest L (fs, failed)).2
        = failed ++ L.filter (fun i => !attemptOk (o i 0))
  | [], fs, failed => by simp [initialPassGo]
  | j :: rest, fs, failed => by
    simp only [initialPassGo, List.filter_cons, applyAttempt]
    cases ho : o j 0 <;>
      simp [attemptOk, attemptBytes, initialPassGo_failed o dest rest]

theorem mergeGo_all_present (dest : String) :
    ∀ (idxs : List Nat) (acc : Bytes) (fs : FS),
      idxs.Nodup → (∀ i ∈ idxs, fs (MPath.chunk dest i) ≠ none) →
      (mergeGo dest idxs acc fs).1 = true
      ∧ (mergeGo dest idxs acc fs).2 (MPath.file dest)
          = some (acc ++ (idxs.map (fun i => (fs (MPath.chunk dest i)).getD [])).flatten)
  | [], acc, fs, _, _ => by simp [mergeGo]
  | i :: rest, acc, fs, hnd, hpres => by
    obtain ⟨b, hb⟩ : ∃ b, fs (MPath.chunk dest i) = some b := by
      cases h : fs (MPath.chunk dest i) with
      | none => exact absurd h (hpres i (List.mem_cons_self i rest))
      | some b => exact ⟨b, rfl⟩
    have hni : i ∉ rest := (List.nodup_cons.mp hnd).1
    have hnd' : rest.Nodup := (List.nodup_cons.mp hnd).2
    have hfs' : ∀ j ∈ rest, (FS.set fs (MPath.chunk dest i) none) (MPath.chunk dest j)
        = fs (MPath.chunk dest j) := by
      intro j hj
      apply FS.set_other
      have : j ≠ i := fun h => hni (h ▸ hj)
      simp [this]
    have ih := mergeGo_all_present dest rest (acc ++ b)
      (FS.set fs (MPath.chunk dest i) none) hnd'
      (by intro j hj; rw [hfs' j hj]; exact hpres j (List.mem_cons_of_mem i hj))
    simp only [mergeGo, hb]
    refine ⟨ih.1, ?_⟩
    rw [ih.2, List.map_congr_left (fun j hj => by rw [hfs' j hj]),
      List.map_cons, List.flatten_cons, hb]
    simp [List.append_assoc]

/- ====================================================================
   Claim C6 — chunk partition and merge round trip
   ==================================================================== -/

/-- C6: for a file of `S = data.length` bytes and chunk size `C` with
`S > 2C`, the chunked strategy partitions `[0, S)` into `ceil(S/C)`
contiguous, non-overlapping inclusive ranges of size `C` (the last
truncated at `S - 1`), and — when every chunk fetch returns exactly its
requested byte range — the merge in ascending index order reconstructs the
original byte string at the destination and the task succeeds. -/
theorem c6_chunk_roundtrip (data : Bytes) (C maxR W pid : Nat) (dest : String)
    (fs : FS) (hC : 0 < C) (hS : 2 * C < data.length) :
    numChunks data.length C = (data.length + C - 1) / C
    ∧ chunkStart C 0 = 0
    ∧ (∀ i, i + 1 < numChunks data.length C →
        chunkEnd C data.length i + 1 = chunkStart C (i + 1)
        ∧ chunkEnd C data.length i + 1 - chunkStart C i = C)
    ∧ chunkEnd C data.length (numChunks data.length C - 1) = data.length - 1
    ∧ (downloadFileMultithread ⟨C, maxR, W⟩ pid
        (fun i _ => ChunkAttempt.ok
          (rangeBytes data (chunkStart C i) (chunkEnd C data.length i)))
        dest data.length fs).1 = true
    ∧ (downloadFileMultithread ⟨C, maxR, W⟩ pid
        (fun i _ => ChunkAttempt.ok
          (rangeBytes data (chunkStart C i) (chunkEnd C data.length i)))
        dest data.length fs).2.1 (MPath.file dest) = some data := by
  have hS0 : 0 < data.length := by omega
  set o : Nat → Nat → ChunkAttempt := fun i _ => ChunkAttempt.ok
    (rangeBytes data (chunkStart C i) (chunkEnd C data.length i)) with hodef
  have hcover : data.length ≤ numChunks data.length C * C :=
    numChunks_mul_ge data.length C hC
  have hn0 : 0 < numChunks data.length C := by
    rcases Nat.eq_zero_or_pos (numChunks data.length C) with h0 | h0
    · rw [h0, Nat.zero_mul] at hcover
      omega
    · exact h0
  have hmuln : numChunks data.length C * C
      = (numChunks data.length C - 1) * C + C := by
    have hsplit : numChunks data.length C = (numChunks data.length C - 1) + 1 := by
      omega
    calc numChunks data.length C * C
        = ((numChunks data.length C - 1) + 1) * C := by rw [← hsplit]
    _ = (numChunks data.length C - 1) * C + C := by rw [Nat.add_mul, Nat.one_mul]
  have hcontig : ∀ i, i + 1 < numChunks data.length C →
      chunkEnd C data.length i + 1 = chunkStart C (i + 1)
      ∧ chunkEnd C data.length i + 1 - chunkStart C i = C := by
    intro i hi
    rw [chunkEnd_not_last data.length C i hC hi]
    unfold chunkStart
    have hmul : (i + 1) * C = i * C + C := by rw [Nat.add_mul, Nat.one_mul]
    omega
  have hbridge : ∀ i, i < numChunks data.length C →
      rangeBytes data (chunkStart C i) (chunkEnd C data.length i)
        = (data.drop (i * C)).take C := by
    intro i hi
    by_cases hlast : i + 1 < numChunks data.length C
    · rw [chunkEnd_not_last data.length C i hC hlast]
      unfold rangeBytes chunkStart
      congr 1
      omega
    · have hieq : i = numChunks data.length C - 1 := by omega
      subst hieq
      rw [chunkEnd_last data.length C hC hS0]
      unfold rangeBytes chunkStart
      have hlen : (data.drop ((numChunks data.length C - 1) * C)).length
          = data.length - (numChunks data.length C - 1) * C := by
        rw [List.length_drop]
      have hle : data.length - (numChunks data.length C - 1) * C ≤ C := by omega
      rw [show data.length - 1 + 1 - (numChunks data.length C - 1) * C
            = data.length - (numChunks data.length C - 1) * C by omega,
        List.take_of_length_le (le_of_eq hlen),
        List.take_of_length_le (by rw [hlen]; exact hle)]
  have hchunk : ∀ i, i < numChunks data.length C →
      (initialPassGo o dest (List.range (numChunks data.length C)) (fs, [])).1
          (MPath.chunk dest i)
        = some (rangeBytes data (chunkStart C i) (chunkEnd C data.length i)) := by
    intro i hi
    rw [initialPassGo_chunk]
    simp [List.mem_range, hi, hodef, attemptBytes]
  have hfailed :
      (initialPassGo o dest (List.range (numChunks data.length C)) (fs, [])).2
        = [] := by
    rw [initialPassGo_failed]
    simp [List.filter_eq_nil_iff, hodef, attemptOk]
  have hmerge := mergeGo_all_present dest (List.range (numChunks data.length C)) []
    (initialPassGo o dest (List.range (numChunks data.length C)) (fs, [])).1
    (List.nodup_range (numChunks data.length C))
    (by intro i hi; rw [hchunk i (List.mem_range.mp hi)]; simp)
  have hmapeq : (List.range (numChunks data.length C)).map
      (fun i => (((initialPassGo o dest (List.range (numChunks data.length C))
          (fs, [])).1 (MPath.chunk dest i)).getD []))
      = (List.range (numChunks data.length C)).map
          (fun i => (data.drop (i * C)).take C) := by
    apply List.map_congr_left
    intro i hi
    rw [hchunk i (List.mem_range.mp hi), Option.getD_some,
      hbridge i (List.mem_range.mp hi)]
  have hrun : downloadFileMultithread ⟨C, maxR, W⟩ pid o dest data.length fs
      = ((mergeGo dest (List.range (numChunks data.length C)) []
            (initialPassGo o dest (List.range (numChunks data.length C)) (fs, [])).1).1,
         (mergeGo dest (List.range (numChunks data.length C)) []
            (initialPassGo o dest (List.range (numChunks data.length C)) (fs, [])).1).2,
         (Ev.poolCreate pid W ::
            (List.replicate (numChunks data.length C) (Ev.request (some pid))
              ++ [Ev.poolClose pid]))
          ++ []
          ++ (if (mergeGo dest (List.range (numChunks data.length C)) []
                (initialPassGo o dest (List.range (numChunks data.length C))
                  (fs, [])).1).1 then []
              else [Ev.emit "merge chunk failed"])) := by
    simp only [downloadFileMultithread, hfailed, retryPhaseGo]
  refine ⟨numChunks_eq_ceil data.length C hC, Nat.zero_mul C, hcontig,
    chunkEnd_last data.length C hC hS0, ?_, ?_⟩
  · rw [hrun]
    exact hmerge.1
  · rw [hrun]
    show (mergeGo dest (List.range (numChunks data.length C)) [] _).2
        (MPath.file dest) = some data
    rw [hmerge.2, List.nil_append, hmapeq]
    rw [flatten_take_chunks C hC (numChunks data.length C) data hcover]

theorem c6_chunk_roundtrip_witness :
    (downloadFileMultithread ⟨2, 3, 4⟩ 0
        (fun i _ => ChunkAttempt.ok
          (rangeBytes [1, 2, 3, 4, 5] (chunkStart 2 i)
            (chunkEnd 2 (List.length [1, 2, 3, 4, 5]) i)))
        "f" (List.length [1, 2, 3, 4, 5]) (fun _ => none)).1 = true
    ∧ (downloadFileMultithread ⟨2, 3, 4⟩ 0
        (fun i _ => ChunkAttempt.ok
          (rangeBytes [1, 2, 3, 4, 5] (chunkStart 2 i)
            (chunkEnd 2 (List.length [1, 2, 3, 4, 5]) i)))
        "f" (List.length [1, 2, 3, 4, 5]) (fun _ => none)).2.1 (MPath.file "f")
      = some [1, 2, 3, 4, 5] :=
  ⟨(c6_chunk_roundtrip [1, 2, 3, 4, 5] 2 3 4 0 "f" (fun _ => none)
      (by decide) (by decide)).2.2.2.2.1,
   (c6_chunk_roundtrip [1, 2, 3, 4, 5] 2 3 4 0 "f" (fun _ => none)
      (by decide) (by decide)).2.2.2.2.2⟩

/- ====================================================================
   Lemmas: retry phase and merge success (C3, C4)
   ==================================================================== -/

theorem attemptOk_bytes : ∀ {a : ChunkAttempt},
    attemptOk a = true → ∃ b, attemptBytes a = some b
  | .ok b, _ => ⟨b, rfl⟩
  | .reqFail, h => by simp [attemptOk] at h
  | .midFail _, h => by simp [attemptOk] at h

/-- Spill-file content left for chunk `i` by the retry loop starting at
attempt `t` with `r` attempts remaining, given previous content `c`. -/
def retryVal (o : Nat → Nat → ChunkAttempt) (i : Nat) :
    Nat → Nat → Option Bytes → Option Bytes
  | _, 0, c => c
  | t, r + 1, c =>
    let c' := match attemptBytes (o i t) with
              | some b => some b
              | none => c
    if attemptOk (o i t) then c' else retryVal o i (t + 1) r c'

theorem retryChunkGo_self (o : Nat → Nat → ChunkAttempt) (dest : String) (i : Nat) :
    ∀ (r t : Nat) (fs : FS),
      (retryChunkGo o dest i t r fs).1 (MPath.chunk dest i)
        = retryVal o i t r (fs (MPath.chunk dest i))
  | 0, t, fs => rfl
  | r + 1, t, fs => by
    simp only [retryChunkGo, retryVal, applyAttempt]
    cases ho : o i t with
    | reqFail =>
      simp [attemptOk, attemptBytes, retryChunkGo_self o dest i r (t + 1) fs]
    | midFail b =>
      simp [attemptOk, attemptBytes,
        retryChunkGo_self o dest i r (t + 1) (FS.set fs (MPath.chunk dest i) (some b))]
    | ok b =>
      simp [attemptOk, attemptBytes]

theorem retryChunkGo_other (o : Nat → Nat → ChunkAttempt) (dest : String) (i : Nat) :
    ∀ (r t : Nat) (fs : FS) (q : MPath), q ≠ MPath.chunk dest i →
      (retryChunkGo o dest i t r fs).1 q = fs q
  | 0, t, fs, q, _ => rfl
  | r + 1, t, fs, q, hq => by
    simp only [retryChunkGo, applyAttempt]
    cases ho : o i t with
    | reqFail =>
      simp [attemptOk, attemptBytes, retryChunkGo_other o dest i r (t + 1) fs q hq]
    | midFail b =>
      simp [attemptOk, attemptBytes,
        retryChunkGo_other o dest i r (t + 1) _ q hq, FS.set_other _ _ _ _ hq]
    | ok b =>
      simp [attemptOk, attemptBytes, FS.set_other _ _ _ _ hq]

theorem retryVal_isSome_iff (o : Nat → Nat → ChunkAttempt) (i : Nat) :
    ∀ (r t : Nat) (c : Option Bytes),
      (retryVal o i t r c ≠ none
        ↔ (c ≠ none ∨ ∃ s, t ≤ s ∧ s < t + r ∧ attemptBytes (o i s) ≠ none))
  | 0, t, c => by
    simp only [retryVal]
    constructor
    · intro h; exact Or.inl h
    · rintro (h | ⟨s, hs1, hs2, _⟩)
      · exact h
      · omega
  | r + 1, t, c => by
    simp only [retryVal]
    cases ho : o i t with
    | ok b =>
      simp only [attemptOk, attemptBytes, if_true]
      constructor
      · intro _
        exact Or.inr ⟨t, le_refl t, by omega, by simp [ho, attemptBytes]⟩
      · intro _
        simp
    | midFail b =>
      simp only [attemptOk, attemptBytes, Bool.false_eq_true, if_false]
      rw [retryVal_isSome_iff o i r (t + 1) (some b)]
      constructor
      · intro _
        exact Or.inr ⟨t, le_refl t, by omega, by simp [ho, attemptBytes]⟩
      · intro _
        exact Or.inl (by simp)
    | reqFail =>
      simp only [attemptOk, attemptBytes, Bool.false_eq_true, if_false]
      rw [retryVal_isSome_iff o i r (t + 1) c]
      constructor
      · rintro (h | ⟨s, hs1, hs2, hs3⟩)
        · exact Or.inl h
        · exact Or.inr ⟨s, by omega, by omega, hs3⟩
      · rintro (h | ⟨s, hs1, hs2, hs3⟩)
        · exact Or.inl h
        · rcases Nat.eq_or_lt_of_le hs1 with rfl | hlt
          · rw [ho] at hs3
            simp [attemptBytes] at hs3
          · exact Or.inr ⟨s, by omega, by omega, hs3⟩

theorem retryPhaseGo_chunk (o : Nat → Nat → ChunkAttempt) (dest : String) (R : Nat) :
    ∀ (failed : List Nat) (fs : FS) (i : Nat), failed.Nodup →
      (retryPhaseGo o dest R failed fs).1 (MPath.chunk dest i)
        = if i ∈ failed then retryVal o i 1 R (fs (MPath.chunk dest i))
          else fs (MPath.chunk dest i)
  | [], fs, i, _ => by simp [retryPhaseGo]
  | j :: rest, fs, i, hnd => by
    simp only [retryPhaseGo]
    rw [retryPhaseGo_chunk o dest R rest _ i (List.nodup_cons.mp hnd).2]
    by_cases hij : i = j
    · subst hij
      have hni : i ∉ rest := (List.nodup_cons.mp hnd).1
      simp [hni, List.mem_cons, retryChunkGo_self o dest i R 1 fs]
    · have hne : MPath.chunk dest i ≠ MPath.chunk dest j := by simp [hij]
      by_cases hir : i ∈ rest <;>
        simp [List.mem_cons, hij, hir, retryChunkGo_other o dest j R 1 fs _ hne]

theorem mergeGo_success_iff (dest : String) :
    ∀ (idxs : List Nat) (acc : Bytes) (fs : FS), idxs.Nodup →
      ((mergeGo dest idxs acc fs).1 = true
        ↔ ∀ i ∈ idxs, fs (MPath.chunk dest i) ≠ none)
  | [], acc, fs, _ => by simp [mergeGo]
  | i :: rest, acc, fs, hnd => by
    have hni : i ∉ rest := (List.nodup_cons.mp hnd).1
    have hnd' : rest.Nodup := (List.nodup_cons.mp hnd).2
    cases hb : fs (MPath.chunk dest i) with
    | none =>
      simp only [mergeGo, hb]
      constructor
      · intro h; exact absurd h (by simp)
      · intro h
        exact absurd hb (h i (List.mem_cons_self i rest))
    | some b =>
      have hfs' : ∀ j ∈ rest, (FS.set fs (MPath.chunk dest i) none) (MPath.chunk dest j)
          = fs (MPath.chunk dest j) := by
        intro j hj
        apply FS.set_other
        have : j ≠ i := fun h => hni (h ▸ hj)
        simp [this]
      simp only [mergeGo, hb]
      rw [mergeGo_success_iff dest rest (acc ++ b) _ hnd']
      constructor
      · intro h j hj
        rcases List.mem_cons.mp hj with rfl | hj'
        · simp [hb]
        · rw [← hfs' j hj']
          exact h j hj'
      · intro h j hj
        rw [hfs' j hj]
        exact h j (List.mem_cons_of_mem i hj)

theorem mt_success_iff (cfg : MtConfig) (pid : Nat) (o : Nat → Nat → ChunkAttempt)
    (dest : String) (size : Nat) (fs : FS)
    (hclean : ∀ i, fs (MPath.chunk dest i) = none) :
    ((downloadFileMultithread cfg pid o dest size fs).1 = true
      ↔ ∀ i, i < numChunks size cfg.chunkSize →
          ∃ t, t ≤ cfg.maxRetries ∧ attemptBytes (o i t) ≠ none) := by
  have hnodup := List.nodup_range (numChunks size cfg.chunkSize)
  have hfailed := initialPassGo_failed o dest
    (List.range (numChunks size cfg.chunkSize)) fs []
  rw [List.nil_append] at hfailed
  have hndfail : ((List.range (numChunks size cfg.chunkSize)).filter
      (fun i => !attemptOk (o i 0))).Nodup := hnodup.filter _
  have hchunk2 : ∀ i, i < numChunks size cfg.chunkSize →
      (((retryPhaseGo o dest cfg.maxRetries
          (initialPassGo o dest (List.range (numChunks size cfg.chunkSize)) (fs, [])).2
          (initialPassGo o dest (List.range (numChunks size cfg.chunkSize)) (fs, [])).1).1
        (MPath.chunk dest i) ≠ none)
        ↔ ∃ t, t ≤ cfg.maxRetries ∧ attemptBytes (o i t) ≠ none) := by
    intro i hi
    rw [hfailed, retryPhaseGo_chunk o dest cfg.maxRetries _ _ i hndfail]
    have hinit : (initialPassGo o dest (List.range (numChunks size cfg.chunkSize))
        (fs, [])).1 (MPath.chunk dest i) = attemptBytes (o i 0) := by
      rw [initialPassGo_chunk]
      simp only [List.mem_range, hi, if_true]
      cases hb : attemptBytes (o i 0) with
      | none => exact hclean i
      | some b => rfl
    rw [hinit]
    by_cases hA : attemptOk (o i 0) = true
    · have hmem : i ∉ (List.range (numChunks size cfg.chunkSize)).filter
          (fun j => !attemptOk (o j 0)) := by
        simp [List.mem_filter, hA]
      rw [if_neg hmem]
      obtain ⟨b, hb⟩ := attemptOk_bytes hA
      constructor
      · intro _
        exact ⟨0, Nat.zero_le _, by simp [hb]⟩
      · intro _
        simp [hb]
    · have hA' : attemptOk (o i 0) = false := by
        revert hA; cases attemptOk (o i 0) <;> simp
      have hmem : i ∈ (List.range (numChunks size cfg.chunkSize)).filter
          (fun j => !attemptOk (o j 0)) := by
        simp [List.mem_filter, List.mem_range, hi, hA']
      rw [if_pos hmem, retryVal_isSome_iff]
      constructor
      · rintro (h0 | ⟨s, hs1, hs2, hs3⟩)
        · exact ⟨0, Nat.zero_le _, h0⟩
        · exact ⟨s, by omega, hs3⟩
      · rintro ⟨t, ht, hbt⟩
        rcases Nat.eq_zero_or_pos t with rfl | htpos
        · exact Or.inl hbt
        · exact Or.inr ⟨t, by omega, by omega, hbt⟩
  simp only [downloadFileMultithread]
  rw [mergeGo_success_iff dest (List.range (numChunks size cfg.chunkSize)) [] _ hnodup]
  constructor
  · intro h i hi
    exact (hchunk2 i hi).mp (h i (List.mem_range.mpr hi))
  · intro h i hi
    exact (hchunk2 i (List.mem_range.mp hi)).mpr (h i (List.mem_range.mp hi))

/- ====================================================================
   Claim C3 — retry of failed chunks, merge regardless
   ==================================================================== -/

/-- C3 (amended): chunks that failed in the initial pass are retried
sequentially, with at most `max_retries` further attempts each, before the
merge — but exhausted retries do not fail the task before merging.  The
merge is attempted unconditionally and the task succeeds exactly when
every chunk's spill file received *some* bytes within attempts
`0..max_retries` (a stale mid-stream partial write counts); and a
(possibly partial or empty) file is always left at the final destination
path, even when the outcome is failure. -/
theorem c3_retry_then_merge (cfg : MtConfig) (pid : Nat)
    (o : Nat → Nat → ChunkAttempt) (dest : String) (size : Nat) (fs : FS)
    (hclean : ∀ i, fs (MPath.chunk dest i) = none) :
    ((downloadFileMultithread cfg pid o dest size fs).1 = true
      ↔ ∀ i, i < numChunks size cfg.chunkSize →
          ∃ t, t ≤ cfg.maxRetries ∧ attemptBytes (o i t) ≠ none)
    ∧ (((downloadFileMultithread cfg pid o dest size fs).2.1) (MPath.file dest)).isSome
        = true :=
  ⟨mt_success_iff cfg pid o dest size fs hclean,
   downloadFileMultithread_leaves_file cfg pid o dest size fs⟩

theorem c3_retry_then_merge_witness :
    (((downloadFileMultithread ⟨1, 1, 1⟩ 0 (fun _ _ => ChunkAttempt.reqFail) "d" 0
        (fun _ => none)).2.1) (MPath.file "d")).isSome = true :=
  (c3_retry_then_merge ⟨1, 1, 1⟩ 0 (fun _ _ => ChunkAttempt.reqFail) "d" 0
    (fun _ => none) (fun _ => rfl)).2

/-- Oracle for the C3 counterexample: a 3-byte file in 1-byte chunks;
chunk 1's initial attempt dies mid-stream after writing the wrong byte 9
into its spill file, and all of its retries fail outright; chunks 0 and 2
succeed. -/
def oC3 : Nat → Nat → ChunkAttempt := fun i t =>
  if i = 1 then (if t = 0 then ChunkAttempt.midFail [9] else ChunkAttempt.reqFail)
  else ChunkAttempt.ok (if i = 0 then [5] else [7])

/-- C3 is false as stated: chunk 1 fails its initial attempt and both of
its `max_retries = 2` retries, yet the task outcome is success — the merge
happily consumes the stale partial spill file — and a (corrupted) file is
left at the final destination path. -/
theorem c3_counterexample :
    attemptOk (oC3 1 0) = false ∧ attemptOk (oC3 1 1) = false
    ∧ attemptOk (oC3 1 2) = false
    ∧ (downloadFileMultithread ⟨1, 2, 2⟩ 0 oC3 "d" 3 (fun _ => none)).1 = true
    ∧ (downloadFileMultithread ⟨1, 2, 2⟩ 0 oC3 "d" 3 (fun _ => none)).2.1
        (MPath.file "d") = some [5, 9, 7] := by
  decide

/- ====================================================================
   Claim C4 — per-task hash verification after transfer
   ==================================================================== -/

/-- C4 (amended): neither transfer strategy performs any hash
verification.  The whole-file outcome is exactly stream completion
(`ok` and no mid-stream error) and the chunked outcome is exactly "every
spill file got written within the attempt budget" — both independent of
whether the resulting bytes match any expected hash.  `verify_file` is
used only to pre-skip already-present assets. -/
theorem c4_no_verification (ctx : Option Nat) (resp : StreamResponse)
    (dest : String) (fs : FS) (cfg : MtConfig) (pid : Nat)
    (o : Nat → Nat → ChunkAttempt) (size : Nat) (fs2 : FS)
    (hclean : ∀ i, fs2 (MPath.chunk dest i) = none) :
    (downloadFileNormal ctx resp dest fs).1 = (resp.ok && !resp.midError)
    ∧ ((downloadFileMultithread cfg pid o dest size fs2).1 = true
        ↔ ∀ i, i < numChunks size cfg.chunkSize →
            ∃ t, t ≤ cfg.maxRetries ∧ attemptBytes (o i t) ≠ none) := by
  refine ⟨?_, mt_success_iff cfg pid o dest size fs2 hclean⟩
  cases hok : resp.ok <;> cases hmid : resp.midError <;>
    simp [downloadFileNormal, hok, hmid]

theorem c4_no_verification_witness :
    (downloadFileNormal none ⟨true, 0, [[1]], false⟩ "d" (fun _ => none)).1
      = (true && !false) :=
  (c4_no_verification none ⟨true, 0, [[1]], false⟩ "d" (fun _ => none)
    ⟨1, 1, 1⟩ 0 (fun _ _ => ChunkAttempt.reqFail) 0 (fun _ => none)
    (fun _ => rfl)).1

/-- C4 is false as stated: a completed whole-file transfer whose bytes do
not match the expected hash is reported as success — no verification is
performed after the transfer, so the corrupted file is silently treated
as present. -/
theorem c4_counterexample :
    (downloadFileNormal none ⟨true, 2, [[9, 9]], false⟩ "lib.jar" (fun _ => none)).1
      = true
    ∧ verify_file (fun b => if b = [1, 2, 3] then "good" else "bad")
        ((downloadFileNormal none ⟨true, 2, [[9, 9]], false⟩ "lib.jar"
          (fun _ => none)).2.1 (MPath.file "lib.jar")) "good" = false := by
  decide

/- ====================================================================
   Claim C2 — idempotent skip
   ==================================================================== -/

theorem libTasks_mem (currentOs : String) (existsAt : String → Bool) :
    ∀ (libs : List Library) (acc : List (String × String)) (u p : String),
      (u, p) ∈ libs.foldl (fun acc lib =>
        if is_library_allowed lib currentOs then
          match lib.artifact with
          | none => acc
          | some a =>
            match a.url, a.path with
            | some u, some p =>
              if u = "" ∨ p = "" then acc
              else if existsAt p then acc else acc ++ [(u, p)]
            | _, _ => acc
        else acc) acc →
      (u, p) ∈ acc ∨ existsAt p = false
  | [], acc, u, p, h => Or.inl h
  | lib :: libs, acc, u, p, h => by
    rw [List.foldl_cons] at h
    rcases libTasks_mem currentOs existsAt libs _ u p h with h1 | h1
    · obtain ⟨rules, art⟩ := lib
      dsimp only at h1
      by_cases hallow : is_library_allowed ⟨rules, art⟩ currentOs
      · rw [if_pos hallow] at h1
        cases art with
        | none => exact Or.inl h1
        | some a =>
          obtain ⟨urlOpt, pathOpt⟩ := a
          cases urlOpt with
          | none => exact Or.inl h1
          | some u' =>
            cases pathOpt with
            | none => exact Or.inl h1
            | some p' =>
              dsimp only at h1
              by_cases hemp : u' = "" ∨ p' = ""
              · rw [if_pos hemp] at h1
                exact Or.inl h1
              · rw [if_neg hemp] at h1
                by_cases hex : existsAt p' = true
                · rw [if_pos hex] at h1
                  exact Or.inl h1
                · rw [if_neg hex] at h1
                  rcases List.mem_append.mp h1 with h2 | h2
                  · exact Or.inl h2
                  · have heq : (u, p) = (u', p') := by simpa using h2
                    have hpp : p = p' := congrArg Prod.snd heq
                    refine Or.inr ?_
                    rw [hpp]
                    simpa using hex
      · rw [if_neg hallow] at h1
        exact Or.inl h1
    · exact Or.inr h1

theorem assetTasks_mem (hashFn : Bytes → String) (fileAt : String → Option Bytes) :
    ∀ (objects : List AssetObj) (acc : List (String × String)) (u p : String),
      (u, p) ∈ objects.foldl (fun acc a =>
        if verify_file hashFn (fileAt (assetPath a.hash)) a.hash then acc
        else acc ++ [(assetUrl a.hash, assetPath a.hash)]) acc →
      (u, p) ∈ acc
      ∨ ∃ a ∈ objects, u = assetUrl a.hash ∧ p = assetPath a.hash
          ∧ verify_file hashFn (fileAt p) a.hash = false
  | [], acc, u, p, h => Or.inl h
  | a :: objects, acc, u, p, h => by
    rw [List.foldl_cons] at h
    rcases assetTasks_mem hashFn fileAt objects _ u p h with h1 | h1
    · by_cases hv : verify_file hashFn (fileAt (assetPath a.hash)) a.hash
      · rw [if_pos hv] at h1
        exact Or.inl h1
      · rw [if_neg hv] at h1
        rcases List.mem_append.mp h1 with h2 | h2
        · exact Or.inl h2
        · have heq : (u, p) = (assetUrl a.hash, assetPath a.hash) := by simpa using h2
          have hu : u = assetUrl a.hash := congrArg Prod.fst heq
          have hp : p = assetPath a.hash := congrArg Prod.snd heq
          refine Or.inr ⟨a, List.mem_cons_self a objects, hu, hp, ?_⟩
          rw [hp]
          simpa using hv
    · rcases h1 with ⟨a', ha', h1⟩
      exact Or.inr ⟨a', List.mem_cons_of_mem a ha', h1⟩

/-- C2 (amended): a library task is emitted only when its destination path
does not already exist (an existence check only — the hash is never
consulted for libraries); an asset task is emitted only for an object
whose content-addressed destination fails hash verification; but the
client archive is never skipped — executing its task (`_download_file`)
always issues at least one network request (the size probe), whatever the
filesystem contains. -/
theorem c2_idempotent_skip (currentOs : String) (existsAt : String → Bool)
    (libs : List Library) (hashFn : Bytes → String)
    (fileAt : String → Option Bytes) (objects : List AssetObj) :
    (∀ u p, (u, p) ∈ downloadLibrariesTasks currentOs existsAt libs →
        existsAt p = false)
    ∧ (∀ u p, (u, p) ∈ downloadAssetsTasks hashFn fileAt objects →
        ∃ a ∈ objects, u = assetUrl a.hash ∧ p = assetPath a.hash
          ∧ verify_file hashFn (fileAt p) a.hash = false)
    ∧ (∀ (cfg : MtConfig) (pid : Nat) (o : TransferOracle) (dest : String) (fs : FS),
        Ev.request none ∈ (downloadFile cfg pid o dest fs).2.2) := by
  refine ⟨?_, ?_, ?_⟩
  · intro u p h
    rcases libTasks_mem currentOs existsAt libs [] u p h with h1 | h1
    · simp at h1
    · exact h1
  · intro u p h
    rcases assetTasks_mem hashFn fileAt objects [] u p h with h1 | h1
    · simp at h1
    · exact h1
  · intro cfg pid o dest fs
    by_cases h : getFileSize o.probe > cfg.chunkSize * 2 <;>
      simp [downloadFile, h]

theorem c2_idempotent_skip_witness :
    (fun _ : String => false) "p" = false :=
  (c2_idempotent_skip "linux" (fun _ => false)
    [⟨none, some ⟨some "u", some "p"⟩⟩] (fun _ => "h") (fun _ => none) []).1
    "u" "p" (by decide)

/-- C2 is false as stated for the client archive: even when the
destination already holds bytes matching the expected hash, executing the
client-archive task (`_download_file`) issues a network request — the size
probe (and then the download itself) is unconditional; `download_version`
never checks the existing jar. -/
theorem c2_counterexample :
    verify_file (fun b => if b = [1, 2] then "h12" else "x")
        ((FS.set (fun _ => none) (MPath.file "client.jar") (some [1, 2]))
          (MPath.file "client.jar")) "h12" = true
    ∧ Ev.request none ∈ (downloadFile ⟨1024, 3, 10⟩ 0
        ⟨Except.ok (some 0), ⟨true, 2, [[1, 2]], false⟩, fun _ _ => ChunkAttempt.reqFail⟩
        "client.jar"
        (FS.set (fun _ => none) (MPath.file "client.jar") (some [1, 2]))).2.2 := by
  decide

/- ====================================================================
   Lemmas: pool discipline of event traces (C9)
   ==================================================================== -/

theorem poolScan_emit_cons (st : Option Nat) (m : String) (t : List Ev) :
    poolScan st (Ev.emit m :: t) = poolScan st t := by
  cases st <;> simp [poolScan]

theorem poolScan_req_none_cons (st : Option Nat) (t : List Ev) :
    poolScan st (Ev.request none :: t) = poolScan st t := by
  cases st <;> simp [poolScan]

theorem poolScan_cons_create (pid w : Nat) (t : List Ev) :
    poolScan none (Ev.poolCreate pid w :: t) = poolScan (some pid) t := by
  simp [poolScan]

theorem poolScan_cons_close (pid : Nat) (t : List Ev) :
    poolScan (some pid) (Ev.poolClose pid :: t) = poolScan none t := by
  simp [poolScan]

theorem poolScan_cons_req_pool (pid : Nat) (t : List Ev) :
    poolScan (some pid) (Ev.request (some pid) :: t) = poolScan (some pid) t := by
  simp [poolScan]

theorem poolScan_append :
    ∀ (a b : List Ev) (st : Option Nat),
      poolScan st (a ++ b) = (poolScan st a).bind (fun st2 => poolScan st2 b)
  | [], b, st => rfl
  | e :: a, b, st => by
    cases e with
    | emit m =>
      rw [List.cons_append, poolScan_emit_cons, poolScan_emit_cons]
      exact poolScan_append a b st
    | request pOpt =>
      cases pOpt with
      | none =>
        rw [List.cons_append, poolScan_req_none_cons, poolScan_req_none_cons]
        exact poolScan_append a b st
      | some p =>
        cases st with
        | none => simp [poolScan]
        | some q =>
          by_cases hpq : p = q
          · subst hpq
            rw [List.cons_append, poolScan_cons_req_pool, poolScan_cons_req_pool]
            exact poolScan_append a b (some p)
          · simp [poolScan, hpq]
    | poolCreate pid w =>
      cases st with
      | none =>
        rw [List.cons_append, poolScan_cons_create, poolScan_cons_create]
        exact poolScan_append a b (some pid)
      | some q => simp [poolScan]
    | poolClose pid =>
      cases st with
      | none => simp [poolScan]
      | some q =>
        by_cases hpq : pid = q
        · subst hpq
          rw [List.cons_append, poolScan_cons_close, poolScan_cons_close]
          exact poolScan_append a b none
        · simp [poolScan, hpq]

theorem poolScan_closed_append {a b : List Ev}
    (ha : poolScan none a = some none) (hb : poolScan none b = some none) :
    poolScan none (a ++ b) = some none := by
  rw [poolScan_append a b none, ha]
  exact hb

theorem poolScan_replicate_req (q : Nat) :
    ∀ n : Nat, poolScan (some q) (List.replicate n (Ev.request (some q))) = some (some q)
  | 0 => rfl
  | n + 1 => by
    rw [List.replicate_succ, poolScan_cons_req_pool]
    exact poolScan_replicate_req q n

theorem poolScan_all_req_none (st : Option Nat) :
    ∀ (t : List Ev), (∀ e ∈ t, e = Ev.request none) → poolScan st t = some st
  | [], _ => rfl
  | e :: t, h => by
    have he := h e (List.mem_cons_self e t)
    subst he
    rw [poolScan_req_none_cons]
    exact poolScan_all_req_none st t (fun e he' => h e (List.mem_cons_of_mem _ he'))

theorem poolScan_if_emit (c : Bool) (m : String) :
    poolScan none (if c then [] else [Ev.emit m]) = some none := by
  cases c <;> rfl

theorem downloadFileNormal_trace (ctx : Option Nat) (resp : StreamResponse)
    (dest : String) (fs : FS) :
    (downloadFileNormal ctx resp dest fs).2.2 = [Ev.request ctx]
    ∨ (downloadFileNormal ctx resp dest fs).2.2
        = [Ev.request ctx, Ev.emit "download failed"] := by
  cases hok : resp.ok <;> cases hmid : resp.midError <;>
    simp [downloadFileNormal, hok, hmid]

theorem downloadFileNormal_scan_none (resp : StreamResponse) (dest : String) (fs : FS) :
    poolScan none (downloadFileNormal none resp dest fs).2.2 = some none := by
  rcases downloadFileNormal_trace none resp dest fs with h | h <;> rw [h] <;> rfl

theorem downloadFileNormal_scan_pool (q : Nat) (resp : StreamResponse)
    (dest : String) (fs : FS) :
    poolScan (some q) (downloadFileNormal (some q) resp dest fs).2.2
      = some (some q) := by
  rcases downloadFileNormal_trace (some q) resp dest fs with h | h <;> rw [h]
  · rw [poolScan_cons_req_pool]
    rfl
  · rw [poolScan_cons_req_pool, poolScan_emit_cons]
    rfl

theorem retryPhaseGo_events (o : Nat → Nat → ChunkAttempt) (dest : String) (R : Nat) :
    ∀ (failed : List Nat) (fs : FS) (e : Ev),
      e ∈ (retryPhaseGo o dest R failed fs).2 → e = Ev.request none
  | [], fs, e, h => by simp [retryPhaseGo] at h
  | i :: rest, fs, e, h => by
    simp only [retryPhaseGo] at h
    rcases List.mem_append.mp h with h1 | h1
    · exact List.eq_of_mem_replicate h1
    · exact retryPhaseGo_events o dest R rest _ e h1

theorem downloadFileMultithread_scan (cfg : MtConfig) (pid : Nat)
    (o : Nat → Nat → ChunkAttempt) (dest : String) (size : Nat) (fs : FS) :
    poolScan none (downloadFileMultithread cfg pid o dest size fs).2.2 = some none := by
  simp only [downloadFileMultithread]
  refine poolScan_closed_append (poolScan_closed_append ?_ ?_) (poolScan_if_emit _ _)
  · rw [poolScan_cons_create, poolScan_append, poolScan_replicate_req]
    show poolScan (some pid) [Ev.poolClose pid] = some none
    rw [show ([Ev.poolClose pid] : List Ev) = Ev.poolClose pid :: [] from rfl,
      poolScan_cons_close]
    rfl
  · exact poolScan_all_req_none none _ (retryPhaseGo_events o dest cfg.maxRetries _ _)

theorem runPoolGo_scan (pid : Nat) (resps : Nat → StreamResponse) :
    ∀ (k : Nat) (tasks : List (String × String)) (fs : FS),
      poolScan (some pid) (runPoolGo pid resps k tasks fs).2 = some (some pid)
  | k, [], fs => rfl
  | k, t :: rest, fs => by
    simp only [runPoolGo]
    rw [poolScan_append, downloadFileNormal_scan_pool]
    exact runPoolGo_scan pid resps (k + 1) rest _

theorem runPoolNormal_scan (pid workers : Nat) (resps : Nat → StreamResponse)
    (tasks : List (String × String)) (fs : FS) :
    poolScan none (runPoolNormal pid workers resps tasks fs).2 = some none := by
  simp only [runPoolNormal]
  rw [poolScan_cons_create, poolScan_append, runPoolGo_scan]
  show poolScan (some pid) [Ev.poolClose pid] = some none
  rw [show ([Ev.poolClose pid] : List Ev) = Ev.poolClose pid :: [] from rfl,
    poolScan_cons_close]
  rfl

theorem downloadAssets_scan (cfg : MtConfig) (hashFn : Bytes → String)
    (o : AssetsOracle) (assetIndex : Option (Option String × Option String))
    (pid : Nat) (fs : FS) :
    poolScan none (downloadAssets cfg hashFn o assetIndex pid fs).2 = some none := by
  dsimp only [downloadAssets]
  split
  · rfl
  next pr =>
    split
    next idStr urlStr =>
      split
      · rfl
      next hemp =>
        have hr1 : ∀ (r1 : FS × List Ev),
            poolScan none r1.2 = some none →
            poolScan none
              (match o.parse with
               | .error _ => (r1.1, r1.2 ++ [Ev.emit "load asset index failed"])
               | .ok objs =>
                 let tasks := downloadAssetsTasks hashFn (fun p => r1.1 (.file p)) objs
                 if tasks = [] then (r1.1, r1.2)
                 else
                   let r2 := runPoolNormal pid cfg.maxWorkers o.taskResp tasks r1.1
                   (r2.1, r1.2 ++ [Ev.emit "download asset objects"] ++ r2.2)).2
              = some none := by
          intro r1 h1
          split
          · exact poolScan_closed_append h1 rfl
          · dsimp only
            split
            · exact h1
            · exact poolScan_closed_append (poolScan_closed_append h1 rfl)
                (runPoolNormal_scan _ _ _ _ _)
        apply hr1
        split
        · exact downloadFileNormal_scan_none _ _ _
        · rfl
    · rfl

theorem downloadLibraries_scan (cfg : MtConfig) (taskResp : Nat → StreamResponse)
    (currentOs : String) (libs : List Library) (pid : Nat) (fs : FS) :
    poolScan none (downloadLibraries cfg taskResp currentOs libs pid fs).2
      = some none := by
  dsimp only [downloadLibraries]
  split
  · rfl
  · rw [poolScan_emit_cons]
    exact runPoolNormal_scan _ _ _ _ _

theorem downloadFile_scan (cfg : MtConfig) (pid : Nat) (o : TransferOracle)
    (dest : String) (fs : FS) :
    poolScan none (downloadFile cfg pid o dest fs).2.2 = some none := by
  by_cases h : getFileSize o.probe > cfg.chunkSize * 2 <;>
    simp only [downloadFile, h, if_true, if_false]
  · rw [poolScan_req_none_cons]
    exact downloadFileMultithread_scan cfg pid o.mt dest _ fs
  · rw [poolScan_req_none_cons]
    exact downloadFileNormal_scan_none o.resp dest fs

/- poolCreate inventories: every pool created anywhere carries
`cfg.maxWorkers` workers. -/

theorem createBound_append {W : Nat} {a b : List Ev}
    (ha : ∀ q w, Ev.poolCreate q w ∈ a → w = W)
    (hb : ∀ q w, Ev.poolCreate q w ∈ b → w = W) :
    ∀ q w, Ev.poolCreate q w ∈ a ++ b → w = W := by
  intro q w h
  rcases List.mem_append.mp h with h | h
  · exact ha q w h
  · exact hb q w h

theorem downloadFileNormal_createBound {W : Nat} (ctx : Option Nat)
    (resp : StreamResponse) (dest : String) (fs : FS) :
    ∀ q w, Ev.poolCreate q w ∈ (downloadFileNormal ctx resp dest fs).2.2 → w = W := by
  intro q w h
  rcases downloadFileNormal_trace ctx resp dest fs with ht | ht <;>
    rw [ht] at h <;> simp at h

theorem downloadFileMultithread_createBound (cfg : MtConfig) (pid : Nat)
    (o : Nat → Nat → ChunkAttempt) (dest : String) (size : Nat) (fs : FS) :
    ∀ q w, Ev.poolCreate q w ∈ (downloadFileMultithread cfg pid o dest size fs).2.2 →
      w = cfg.maxWorkers := by
  intro q w h
  simp only [downloadFileMultithread] at h
  rcases List.mem_append.mp h with h | h
  · rcases List.mem_append.mp h with h | h
    · rcases List.mem_cons.mp h with h | h
      · injection h with h1 h2
      · rcases List.mem_append.mp h with h | h
        · have := List.eq_of_mem_replicate h
          simp at this
        · simp at h
    · have := retryPhaseGo_events o dest cfg.maxRetries _ _ _ h
      simp at this
  · split at h <;> simp at h

theorem runPoolGo_noCreate (pid : Nat) (resps : Nat → StreamResponse) :
    ∀ (k : Nat) (tasks : List (String × String)) (fs : FS) (q w : Nat),
      Ev.poolCreate q w ∉ (runPoolGo pid resps k tasks fs).2
  | k, [], fs, q, w => by simp [runPoolGo]
  | k, t :: rest, fs, q, w => by
    simp only [runPoolGo]
    intro h
    rcases List.mem_append.mp h with h | h
    · rcases downloadFileNormal_trace (some pid) (resps k) t.2 fs with ht | ht <;>
        rw [ht] at h <;> simp at h
    · exact runPoolGo_noCreate pid resps (k + 1) rest _ q w h

theorem runPoolNormal_createBound (pid workers : Nat) (resps : Nat → StreamResponse)
    (tasks : List (String × String)) (fs : FS) :
    ∀ q w, Ev.poolCreate q w ∈ (runPoolNormal pid workers resps tasks fs).2 →
      w = workers := by
  intro q w h
  simp only [runPoolNormal] at h
  rcases List.mem_cons.mp h with h | h
  · injection h with h1 h2
  · rcases List.mem_append.mp h with h | h
    · exact absurd h (runPoolGo_noCreate pid resps 0 tasks fs q w)
    · simp at h

theorem downloadAssets_createBound (cfg : MtConfig) (hashFn : Bytes → String)
    (o : AssetsOracle) (assetIndex : Option (Option String × Option String))
    (pid : Nat) (fs : FS) :
    ∀ q w, Ev.poolCreate q w ∈ (downloadAssets cfg hashFn o assetIndex pid fs).2 →
      w = cfg.maxWorkers := by
  dsimp only [downloadAssets]
  split
  · intro q w h; simp at h
  next pr =>
    split
    next idStr urlStr =>
      split
      · intro q w h; simp at h
      next hemp =>
        have hr1 : ∀ (r1 : FS × List Ev),
            (∀ q w, Ev.poolCreate q w ∈ r1.2 → w = cfg.maxWorkers) →
            ∀ q w, Ev.poolCreate q w ∈
              (match o.parse with
               | .error _ => (r1.1, r1.2 ++ [Ev.emit "load asset index failed"])
               | .ok objs =>
                 let tasks := downloadAssetsTasks hashFn (fun p => r1.1 (.file p)) objs
                 if tasks = [] then (r1.1, r1.2)
                 else
                   let r2 := runPoolNormal pid cfg.maxWorkers o.taskResp tasks r1.1
                   (r2.1, r1.2 ++ [Ev.emit "download asset objects"] ++ r2.2)).2 →
              w = cfg.maxWorkers := by
          intro r1 h1
          split
          · exact createBound_append h1 (by intro q w h; simp at h)
          · dsimp only
            split
            · exact h1
            · exact createBound_append
                (createBound_append h1 (by intro q w h; simp at h))
                (runPoolNormal_createBound pid cfg.maxWorkers _ _ _)
        apply hr1
        split
        · exact downloadFileNormal_createBound none _ _ _
        · intro q w h; simp at h
    · intro q w h; simp at h

theorem downloadLibraries_createBound (cfg : MtConfig)
    (taskResp : Nat → StreamResponse) (currentOs : String) (libs : List Library)
    (pid : Nat) (fs : FS) :
    ∀ q w, Ev.poolCreate q w ∈ (downloadLibraries cfg taskResp currentOs libs pid fs).2 →
      w = cfg.maxWorkers := by
  dsimp only [downloadLibraries]
  split
  · intro q w h; simp at h
  · intro q w h
    rw [List.mem_cons] at h
    rcases h with h | h
    · simp at h
    · exact runPoolNormal_createBound pid cfg.maxWorkers _ _ _ q w h

theorem downloadFile_createBound (cfg : MtConfig) (pid : Nat) (o : TransferOracle)
    (dest : String) (fs : FS) :
    ∀ q w, Ev.poolCreate q w ∈ (downloadFile cfg pid o dest fs).2.2 →
      w = cfg.maxWorkers := by
  by_cases h : getFileSize o.probe > cfg.chunkSize * 2 <;>
    simp only [downloadFile, h, if_true, if_false] <;>
    intro q w hm <;> rw [List.mem_cons] at hm <;> rcases hm with hm | hm
  · simp at hm
  · exact downloadFileMultithread_createBound cfg pid o.mt dest _ fs q w hm
  · simp at hm
  · exact downloadFileNormal_createBound none o.resp dest fs q w hm

theorem poolScan_stage (c : Bool) (x y : FS) (m : String) (t : List Ev)
    (h : poolScan none t = some none) :
    poolScan none (if c then (x, Ev.emit m :: t) else (y, ([] : List Ev))).2
      = some none := by
  cases c
  · rfl
  · show poolScan none (Ev.emit m :: t) = some none
    rw [poolScan_emit_cons]
    exact h

theorem createBound_stage {W : Nat} (c : Bool) (x y : FS) (m : String) (t : List Ev)
    (h : ∀ q w, Ev.poolCreate q w ∈ t → w = W) :
    ∀ q w, Ev.poolCreate q w ∈
        (if c then (x, Ev.emit m :: t) else (y, ([] : List Ev))).2 → w = W := by
  cases c
  · intro q w hm; simp at hm
  · intro q w hm
    rw [show (if true then (x, Ev.emit m :: t) else (y, ([] : List Ev))).2
        = Ev.emit m :: t from rfl] at hm
    rcases List.mem_cons.mp hm with hm | hm
    · simp at hm
    · exact h q w hm

theorem downloadVersionBody_scan (cfg : MtConfig) (hashFn : Bytes → String)
    (o : VersionOracle) (currentOs versionId : String) (dlA dlL : Bool) (fs : FS) :
    poolScan none
      (downloadVersionBody cfg hashFn o currentOs versionId dlA dlL fs).2.2
      = some none := by
  dsimp only [downloadVersionBody]
  split
  · rfl
  next vd =>
    split
    · rfl
    next =>
      split
      · rfl
      next curl =>
        split
        · exact poolScan_closed_append rfl (downloadFile_scan _ _ _ _ _)
        · split
          · refine poolScan_closed_append (poolScan_closed_append
              (poolScan_closed_append
                (poolScan_closed_append rfl (downloadFile_scan _ _ _ _ _))
                (poolScan_stage _ _ _ _ _ (downloadAssets_scan _ _ _ _ _ _)))
              (poolScan_stage _ _ _ _ _ (downloadLibraries_scan _ _ _ _ _ _))) rfl
          · refine poolScan_closed_append (poolScan_closed_append
              (poolScan_closed_append
                (poolScan_closed_append
                  (poolScan_closed_append rfl (downloadFile_scan _ _ _ _ _))
                  (poolScan_stage _ _ _ _ _ (downloadAssets_scan _ _ _ _ _ _)))
                (poolScan_stage _ _ _ _ _ (downloadLibraries_scan _ _ _ _ _ _))) rfl)
              rfl

theorem downloadVersionBody_createBound (cfg : MtConfig) (hashFn : Bytes → String)
    (o : VersionOracle) (currentOs versionId : String) (dlA dlL : Bool) (fs : FS) :
    ∀ q w, Ev.poolCreate q w ∈
        (downloadVersionBody cfg hashFn o currentOs versionId dlA dlL fs).2.2 →
      w = cfg.maxWorkers := by
  dsimp only [downloadVersionBody]
  split
  · intro q w h; simp at h
  next vd =>
    split
    · intro q w h; simp at h
    next =>
      split
      · intro q w h; simp at h
      next curl =>
        split
        · exact createBound_append (by intro q w h; simp at h)
            (downloadFile_createBound _ _ _ _ _)
        · split
          · exact createBound_append (createBound_append (createBound_append
              (createBound_append (by intro q w h; simp at h)
                (downloadFile_createBound _ _ _ _ _))
              (createBound_stage _ _ _ _ _ (downloadAssets_createBound _ _ _ _ _ _)))
              (createBound_stage _ _ _ _ _ (downloadLibraries_createBound _ _ _ _ _ _)))
              (by intro q w h; simp at h)
          · exact createBound_append (createBound_append (createBound_append
              (createBound_append (createBound_append (by intro q w h; simp at h)
                (downloadFile_createBound _ _ _ _ _))
              (createBound_stage _ _ _ _ _ (downloadAssets_createBound _ _ _ _ _ _)))
              (createBound_stage _ _ _ _ _ (downloadLibraries_createBound _ _ _ _ _ _)))
              (by intro q w h; simp at h))
              (by intro q w h; simp at h)

/- ====================================================================
   Claim C9 — worker pools
   ==================================================================== -/

/-- C9 (amended): there is no single shared pool — each chunked download
and each asset/library batch creates its own `ThreadPoolExecutor` — but
every pool the engine creates has exactly `max_workers` workers, and
within one `download_version` call the pool scopes are strictly
sequential: at most one pool is ever open, every pooled request runs
inside the scope of the pool that created it, and all other requests
(probes, whole-file client/index downloads, retries) run on the calling
thread.  Hence at most `max_workers` transfer requests are in flight at
any point of a `download_version` call, but not by virtue of one shared
global pool. -/
theorem c9_pool_discipline (cfg : MtConfig) (hashFn : Bytes → String)
    (o : VersionOracle) (currentOs versionId : String) (dlA dlL : Bool) (fs : FS) :
    poolScan none
      (downloadVersion cfg hashFn o currentOs versionId dlA dlL fs).2.2 = some none
    ∧ ∀ q w, Ev.poolCreate q w ∈
        (downloadVersion cfg hashFn o currentOs versionId dlA dlL fs).2.2 →
      w = cfg.maxWorkers := by
  constructor
  · dsimp only [downloadVersion]
    split
    · exact downloadVersionBody_scan cfg hashFn o currentOs versionId dlA dlL fs
    · exact poolScan_closed_append
        (downloadVersionBody_scan cfg hashFn o currentOs versionId dlA dlL fs) rfl
  · dsimp only [downloadVersion]
    split
    · exact downloadVersionBody_createBound cfg hashFn o currentOs versionId dlA dlL fs
    · exact createBound_append
        (downloadVersionBody_createBound cfg hashFn o currentOs versionId dlA dlL fs)
        (by intro q w h; simp at h)

/-- Environment of the C9 counterexample run: a 3-byte client archive
(chunk size 1, so the chunked strategy with its own pool is used), one
asset object that needs downloading (so the assets batch opens a second
pool), and no libraries. -/
def oC9 : VersionOracle :=
  ⟨Except.ok ⟨some "cu", some (some "1", some "iu"), []⟩,
   Except.ok (),
   ⟨Except.ok (some 3), ⟨true, 0, [], false⟩, fun i _ => ChunkAttempt.ok [i]⟩,
   ⟨⟨true, 0, [[2]], false⟩, Except.ok [⟨"a", "ab", 1⟩],
    fun _ => ⟨true, 0, [[3]], false⟩⟩,
   fun _ => ⟨true, 0, [], false⟩,
   Except.ok ()⟩

/-- C9 is false as stated: in one `download_version` run, network requests
are issued outside any pool (the calling thread: catalog fetch, size
probe, asset-index download), from a pool created for the client's chunks
(pool 0), and from a different pool created for the asset batch (pool 1) —
the requests do not draw from one shared worker pool. -/
theorem c9_counterexample :
    Ev.request none ∈ (downloadVersion ⟨1, 1, 2⟩ (fun _ => "h") oC9 "linux" "v"
        true false (fun _ => none)).2.2
    ∧ Ev.request (some 0) ∈ (downloadVersion ⟨1, 1, 2⟩ (fun _ => "h") oC9 "linux" "v"
        true false (fun _ => none)).2.2
    ∧ Ev.request (some 1) ∈ (downloadVersion ⟨1, 1, 2⟩ (fun _ => "h") oC9 "linux" "v"
        true false (fun _ => none)).2.2
    ∧ Ev.poolCreate 0 2 ∈ (downloadVersion ⟨1, 1, 2⟩ (fun _ => "h") oC9 "linux" "v"
        true false (fun _ => none)).2.2
    ∧ Ev.poolCreate 1 2 ∈ (downloadVersion ⟨1, 1, 2⟩ (fun _ => "h") oC9 "linux" "v"
        true false (fun _ => none)).2.2 := by
  decide

theorem c9_pool_discipline_witness :
    (2 : Nat) = (⟨1, 1, 2⟩ : MtConfig).maxWorkers :=
  (c9_pool_discipline ⟨1, 1, 2⟩ (fun _ => "h") oC9 "linux" "v" true false
    (fun _ => none)).2 1 2 (by decide)

/- ====================================================================
   Claim C10 — download_version catches everything
   ==================================================================== -/

theorem downloadVersion_cases (cfg : MtConfig) (hashFn : Bytes → String)
    (o : VersionOracle) (currentOs versionId : String) (dlA dlL : Bool) (fs : FS) :
    (∀ b, (downloadVersionBody cfg hashFn o currentOs versionId dlA dlL fs).1 = some b →
      downloadVersion cfg hashFn o currentOs versionId dlA dlL fs
        = (b, (downloadVersionBody cfg hashFn o currentOs versionId dlA dlL fs).2.1,
           (downloadVersionBody cfg hashFn o currentOs versionId dlA dlL fs).2.2))
    ∧ ((downloadVersionBody cfg hashFn o currentOs versionId dlA dlL fs).1 = none →
      downloadVersion cfg hashFn o currentOs versionId dlA dlL fs
        = (false, (downloadVersionBody cfg hashFn o currentOs versionId dlA dlL fs).2.1,
           (downloadVersionBody cfg hashFn o currentOs versionId dlA dlL fs).2.2
             ++ [Ev.emit "download version failed"])) := by
  constructor
  · intro b hb
    dsimp only [downloadVersion]
    rw [hb]
  · intro hb
    dsimp only [downloadVersion]
    rw [hb]

/-- C10: `download_version` never lets an exception escape — its whole
body runs inside `try`, so the call always returns a boolean.  The result
is `True` exactly when the body ran to its final `return True`; when an
exception escapes the body (modelled: the body result is `none`), the
handler emits a failure progress message and returns `False`; and a
`True` result implies that none of the modelled raising steps (details
fetch, version-JSON write, the `downloads/client/url` key lookup, native
extraction) raised. -/
theorem c10_no_exception_escape (cfg : MtConfig) (hashFn : Bytes → String)
    (o : VersionOracle) (currentOs versionId : String) (dlA dlL : Bool) (fs : FS) :
    ((downloadVersion cfg hashFn o currentOs versionId dlA dlL fs).1 = true
      ↔ (downloadVersionBody cfg hashFn o currentOs versionId dlA dlL fs).1 = some true)
    ∧ ((downloadVersionBody cfg hashFn o currentOs versionId dlA dlL fs).1 = none →
        (downloadVersion cfg hashFn o currentOs versionId dlA dlL fs).1 = false
        ∧ Ev.emit "download version failed"
            ∈ (downloadVersion cfg hashFn o currentOs versionId dlA dlL fs).2.2)
    ∧ ((downloadVersion cfg hashFn o currentOs versionId dlA dlL fs).1 = true →
        o.details ≠ Except.error () ∧ o.saveJson ≠ Except.error ()
        ∧ o.extractNatives ≠ Except.error ()
        ∧ (∀ vd, o.details = Except.ok vd → vd.clientUrl ≠ none)) := by
  have hiff : (downloadVersion cfg hashFn o currentOs versionId dlA dlL fs).1 = true
      ↔ (downloadVersionBody cfg hashFn o currentOs versionId dlA dlL fs).1
          = some true := by
    cases hb : (downloadVersionBody cfg hashFn o currentOs versionId dlA dlL fs).1 with
    | some b =>
      rw [(downloadVersion_cases cfg hashFn o currentOs versionId dlA dlL fs).1 b hb]
      cases b <;> simp
    | none =>
      rw [(downloadVersion_cases cfg hashFn o currentOs versionId dlA dlL fs).2 hb]
      simp
  refine ⟨hiff, ?_, ?_⟩
  · intro hn
    rw [(downloadVersion_cases cfg hashFn o currentOs versionId dlA dlL fs).2 hn]
    refine ⟨rfl, ?_⟩
    exact List.mem_append.mpr (Or.inr (List.mem_singleton.mpr rfl))
  · intro htrue
    have hb := hiff.mp htrue
    refine ⟨?_, ?_, ?_, ?_⟩
    · intro hd
      simp [downloadVersionBody, hd] at hb
    · intro hs
      cases hd : o.details with
      | error e => simp [downloadVersionBody, hd] at hb
      | ok vd => simp [downloadVersionBody, hd, hs] at hb
    · intro hx
      cases hd : o.details with
      | error e => simp [downloadVersionBody, hd] at hb
      | ok vd =>
        cases hs : o.saveJson with
        | error e => simp [downloadVersionBody, hd, hs] at hb
        | ok u =>
          cases hcu : vd.clientUrl with
          | none => simp [downloadVersionBody, hd, hs, hcu] at hb
          | some curl =>
            simp only [downloadVersionBody, hd, hs, hcu, hx] at hb
            split at hb <;> simp at hb
    · intro vd hvd hcu
      cases hs : o.saveJson with
      | error e => simp [downloadVersionBody, hvd, hs] at hb
      | ok u => simp [downloadVersionBody, hvd, hs, hcu] at hb

/-- Environment for the C10 witness: the details fetch raises a
`NetworkError`. -/
def oC10 : VersionOracle :=
  ⟨Except.error (), Except.ok (),
   ⟨Except.ok none, ⟨false, 0, [], false⟩, fun _ _ => ChunkAttempt.reqFail⟩,
   ⟨⟨false, 0, [], false⟩, Except.error (), fun _ => ⟨false, 0, [], false⟩⟩,
   fun _ => ⟨false, 0, [], false⟩,
   Except.ok ()⟩

theorem c10_no_exception_escape_witness :
    (downloadVersion ⟨1, 1, 1⟩ (fun _ => "h") oC10 "linux" "v" true true
        (fun _ => none)).1 = false
    ∧ Ev.emit "download version failed" ∈ (downloadVersion ⟨1, 1, 1⟩ (fun _ => "h")
        oC10 "linux" "v" true true (fun _ => none)).2.2 :=
  (c10_no_exception_escape ⟨1, 1, 1⟩ (fun _ => "h") oC10 "linux" "v" true true
    (fun _ => none)).2.1 (by decide)

theorem c8_strategy_selection_witness :
    (downloadFile ⟨4, 1, 1⟩ 0
        ⟨Except.error (), ⟨true, 0, [], false⟩, fun _ _ => ChunkAttempt.reqFail⟩
        "d" (fun _ => none)).2.2.head? = some (Ev.request none) :=
  (c8_strategy_selection ⟨4, 1, 1⟩ 0
    ⟨Except.error (), ⟨true, 0, [], false⟩, fun _ _ => ChunkAttempt.reqFail⟩
    "d" (fun _ => none)).2.1
